import Mathlib

/-!
Verification of the agent-orchestration subsystem of the LLM_API_unified
repository, as a shallow embedding in Lean 4.

Embedded source files:
  * `tools_config.py`            — `TOOL_SCHEMAS`
  * `config.py`                  — tool lists, budgets, iteration cap
  * `backend/agent.py`           — `_build_tool_schemas`, `AgentLoop`
  * `backend/core/llm_backend.py`— `LlamaCppBackend.chat_stream`
  * `backend/api/routes/chat.py` — `chat_completions`
  * `backend/api/routes/jobs.py` — `_run_job`, `submit_job`

Python strings are embedded as Lean `String`s (character sequences, with
slicing expressed through the underlying character list); Python dicts used
as keyed stores are embedded as association lists; `asyncio.gather` over a
list comprehension is embedded as `List.map` of a per-call oracle, which is
exactly its result contract (results in task order, independent of
completion order).  Wall-clock durations (Python floats) carry no claim and
are elided from the embedded event records.
-/

/-! ## `tools_config.py` — TOOL_SCHEMAS

Each schema carries a function name, a parameter-property list and a
required list.  Descriptions and JSON types of the individual properties
are elided: no claim mentions them.  The keys and the property/required
name lists are verbatim from `tools_config.py`.
-/

structure ToolSchemaSrc where
  name : String
  propNames : List String
  required : List String
  deriving Repr, DecidableEq

def TOOL_SCHEMAS : List (String × ToolSchemaSrc) :=
  [ ("websearch", ⟨"websearch", ["query", "max_results"], ["query"]⟩),
    ("python_coder", ⟨"python_coder", ["instruction", "timeout"], ["instruction"]⟩),
    ("rag", ⟨"rag", ["collection_name", "query", "max_results"],
      ["collection_name", "query"]⟩),
    ("file_reader", ⟨"file_reader", ["path", "offset", "limit"], ["path"]⟩),
    ("file_writer", ⟨"file_writer", ["path", "content", "mode"], ["path", "content"]⟩),
    ("file_navigator", ⟨"file_navigator", ["operation", "path", "pattern"], ["operation"]⟩),
    ("shell_exec", ⟨"shell_exec", ["command", "timeout", "working_directory"], ["command"]⟩),
    ("memo", ⟨"memo", ["operation", "key", "value"], ["operation"]⟩),
    ("process_monitor", ⟨"process_monitor",
      ["operation", "command", "handle", "working_directory", "offset", "max_lines", "stream"],
      ["operation"]⟩) ]

/-- `config.AVAILABLE_TOOLS` (config.py lines 79-88). -/
def AVAILABLE_TOOLS : List String :=
  ["websearch", "python_coder", "rag", "file_reader", "file_writer",
   "file_navigator", "shell_exec", "memory"]

/-- `config.AGENT_MAX_ITERATIONS` (config.py line 35). -/
def AGENT_MAX_ITERATIONS : Nat := 8

/-- `config.TOOL_RESULT_BUDGET` (config.py lines 113-122). -/
def TOOL_RESULT_BUDGET : List (String × Nat) :=
  [ ("websearch", 2000), ("python_coder", 5000), ("rag", 3000),
    ("file_reader", 4000), ("file_writer", 500), ("file_navigator", 2000),
    ("shell_exec", 3000), ("memory", 500) ]

/-- `config.TOOL_RESULT_DEFAULT_BUDGET` (config.py line 123). -/
def TOOL_RESULT_DEFAULT_BUDGET : Nat := 3000

/-! ## `backend/agent.py` — `_build_tool_schemas` -/

/-- One entry of the list built by `_build_tool_schemas`: the
`\x7b"type": "function", "function": \x7b...\x7d\x7d` wrapper is flattened to
the function name, property names and required list, which is all the
wrapper holds besides the elided descriptions. -/
structure FnSchema where
  name : String
  propNames : List String
  required : List String
  deriving Repr, DecidableEq

/-- `_build_tool_schemas` (agent.py lines 35-61): for each tool name in
`AVAILABLE_TOOLS`, look its schema up in `TOOL_SCHEMAS`; a missing schema is
skipped (`continue`); `session_id` is removed from the properties
(`props.pop`) and from the required list (`required.remove`, first
occurrence — property keys are unique, so `List.erase` matches both). -/
def buildToolSchemas : List FnSchema :=
  AVAILABLE_TOOLS.filterMap fun toolName =>
    match TOOL_SCHEMAS.lookup toolName with
    | none => none
    | some schema =>
        some { name := schema.name,
               propNames := schema.propNames.erase "session_id",
               required := schema.required.erase "session_id" }

/-- `_CACHED_TOOL_SCHEMAS` (agent.py line 65). -/
def CACHED_TOOL_SCHEMAS : List FnSchema := buildToolSchemas

/-- `AgentLoop._get_tool_schemas` (agent.py lines 193-198): `None` when no
tools are enabled or none of the cached schemas match. -/
def getToolSchemas (enabledTools : List String) : Option (List FnSchema) :=
  if enabledTools = [] then none
  else
    let schemas := CACHED_TOOL_SCHEMAS.filter fun s => s.name ∈ enabledTools
    if schemas = [] then none else some schemas

/-! ## `backend/agent.py` — `_truncate_tool_result` (microcompaction stage 1) -/

/-- `config.TOOL_RESULT_BUDGET.get(tool_name, config.TOOL_RESULT_DEFAULT_BUDGET)`
(agent.py line 370). -/
def budgetFor (toolName : String) : Nat :=
  (TOOL_RESULT_BUDGET.lookup toolName).getD TOOL_RESULT_DEFAULT_BUDGET

/-- The string the code appends on truncation (agent.py line 379):
`"\n...[truncated, \x7blen(content)\x7d chars total]"` — note the leading
newline in the f-string. -/
def truncationMarker (totalChars : Nat) : String :=
  "\n...[truncated, " ++ toString totalChars ++ " chars total]"

/-- Modelled from the spec words of the claim: the truncation marker as the
claim quotes it, `...[truncated, N chars total]`, **without** a leading
newline.  Kept separate from `truncationMarker` (the code's marker) so the
claimed length bound can be compared with the code's actual output. -/
def claimTruncationMarker (totalChars : Nat) : String :=
  "...[truncated, " ++ toString totalChars ++ " chars total]"

/-- Python string slicing `content[:budget]`: Python slices by character,
so this is `take` on the character sequence. -/
def pySlice (s : String) (n : Nat) : String := String.mk (s.data.take n)

/-- `AgentLoop._truncate_tool_result` together with
`_save_tool_result_to_disk` (agent.py lines 368-390).  The first component
is the content fed back to the model; the second is the overflow file
written to `data/tool_results/\x7bsession_id\x7d/\x7bcall_id\x7d.json`,
as `(session_id, call_id, full content)`, or `none` when nothing is saved.
`call_id` is `str(uuid4())[:8]` in the source — a short random id, taken
here as a parameter.  `if self.session_id:` is Python truthiness: an empty
session-id string is falsy, hence the inner check. -/
def truncateToolResult (toolName : String) (sessionId : Option String)
    (callId : String) (content : String) : String × Option (String × String × String) :=
  let budget := budgetFor toolName
  if content.length ≤ budget then (content, none)
  else
    let saved := match sessionId with
      | some sid => if sid = "" then none else some (sid, callId, content)
      | none => none
    (pySlice content budget ++ truncationMarker content.length, saved)

/-! ## `backend/api/routes/chat.py` — `chat_completions` error mapping -/

/-- The exception kinds the `chat_completions` handler can raise or catch:
FastAPI `HTTPException` (a subclass of `Exception`), `json.JSONDecodeError`,
and any other exception. -/
inductive PyExc where
  | httpExc (statusCode : Nat) (detail : String)
  | jsonDecodeError
  | otherExc (msg : String)
  deriving Repr, DecidableEq

/-- `str(e)` for a caught exception; starlette renders `HTTPException` as
`"\x7bstatus_code\x7d: \x7bdetail\x7d"`. -/
def pyExcStr : PyExc → String
  | .httpExc statusCode detail => toString statusCode ++ ": " ++ detail
  | .jsonDecodeError => "json decode error"
  | .otherExc msg => msg

/-- The HTTP outcome of one `chat_completions` request, together with
whether the handler reached the `AgentLoop` construction and run
(chat.py line 127 onward). -/
structure HttpOutcome where
  status : Nat
  detail : Option String
  agentStarted : Bool
  deriving Repr, DecidableEq

/-- `chat_completions` (chat.py lines 75-212), to the depth the error
mapping needs.  The whole handler body is one `try:` block.  Inside it:
`json.loads(messages)` may fail (modelled by `messagesParseOk`);
`if session_id:` (line 96) is Python truthiness, so both a missing and an
**empty-string** `session_id` take the create-new-session path (lines
103-106) and proceed to the agent; a truthy `session_id` that is not in
the session store raises `HTTPException(404, "Session not found")` (lines
96-99) before the agent is constructed; everything after the session
handling — file handling, agent construction and the run — is abstracted
into `downstreamOutcome` plus the flag `downstreamStarted` saying whether
line 127 was reached.  The `except` chain (lines 209-212) maps
`JSONDecodeError` to HTTP 400 and **every other exception —
`HTTPException` included, since it subclasses `Exception` — to
`HTTPException(500, str(e))`**. -/
def chatCompletionsModel (messagesParseOk : Bool) (sessions : List String)
    (sessionId : Option String) (downstreamStarted : Bool)
    (downstreamOutcome : Except PyExc Unit) : HttpOutcome :=
  let body : Except PyExc Unit × Bool :=
    if ¬ messagesParseOk then (.error .jsonDecodeError, false)
    else match sessionId with
      | some sid =>
          if sid = "" then (downstreamOutcome, downstreamStarted)
          else if sid ∈ sessions then (downstreamOutcome, downstreamStarted)
          else (.error (.httpExc 404 "Session not found"), false)
      | none => (downstreamOutcome, downstreamStarted)
  match body with
  | (.ok _, started) => { status := 200, detail := none, agentStarted := started }
  | (.error .jsonDecodeError, started) =>
      { status := 400, detail := some "Invalid messages JSON", agentStarted := started }
  | (.error e, started) =>
      { status := 500, detail := some (pyExcStr e), agentStarted := started }

/-! ## `backend/agent.py` — `_dispatch_tool`, the `rag` branch -/

/-- Outcome of the `rag` branch of `_dispatch_tool`: either the early
validation error dict `\x7bsuccess: False, error, available_collections\x7d`
(so `success` is false by construction for `err`), or the value returned by
the tool body `RAGTool.retrieve` (of abstract type `ρ`). -/
inductive RagDispatchResult (ρ : Type) where
  | err (error : String) (availableCollections : List String)
  | body (r : ρ)
  deriving Repr, DecidableEq

/-- The `available_collections` field of the early-error dict, when the
result is such an error. -/
def RagDispatchResult.availableOf {ρ : Type} : RagDispatchResult ρ → Option (List String)
  | .err _ a => some a
  | .body _ => none

/-- Whether the result came from the tool body `retrieve`. -/
def RagDispatchResult.isBody {ρ : Type} : RagDispatchResult ρ → Bool
  | .err _ _ => false
  | .body _ => true

/-- The `rag` branch of `AgentLoop._dispatch_tool` (agent.py lines 256-283).
`available_collections` is the lazily fetched list for the current user;
`arguments.get("collection_name")` is an `Option`; `retrieve` is the tool
body, invoked only on the final branch.  The second component records
whether `retrieve` was invoked.  (The single-quote characters around the
interpolated name in the source error message are elided.)  Python renders
a missing argument as `None` in the message; the membership test
`None not in available_collections` is false for every string list, which
the `Option` match mirrors. -/
def dispatchRag {ρ : Type} (availableCollections : List String)
    (collectionNameArg : Option String) (queryArg : String)
    (maxResultsArg : Option Nat)
    (retrieve : String → String → Option Nat → ρ) : RagDispatchResult ρ × Bool :=
  if availableCollections = [] then
    (.err "No RAG collections are available for this user. Create a collection first." [],
     false)
  else
    match collectionNameArg with
    | some requested =>
        if requested ∈ availableCollections then
          (.body (retrieve requested queryArg maxResultsArg), true)
        else
          (.err ("Invalid collection_name " ++ requested ++
                 ". Use one of the available collections.") availableCollections,
           false)
    | none =>
        (.err ("Invalid collection_name " ++ "None" ++
               ". Use one of the available collections.") availableCollections,
         false)

/-! ## `backend/api/routes/jobs.py` — `_run_job` and `submit_job` -/

/-- A persisted conversation message `\x7b"role": ..., "content": ...\x7d`. -/
structure Msg where
  role : String
  content : String
  deriving Repr, DecidableEq

/-- The stream events visible outside `AgentLoop.run_stream`
(`TextEvent` and `ToolStatusEvent`; `ToolCallDeltaEvent` never escapes the
loop).  Wall-clock durations are elided. -/
inductive AgentEvt where
  | text (content : String)
  | toolStatus (toolName : String) (toolCallId : String) (status : String)
  deriving Repr, DecidableEq

/-- The body of the `async for` loop in `_run_job` (jobs.py lines 62-72).
State: `(assistant_message, output_chunks, tool_events)`; a `TextEvent`
extends the accumulated assistant message and appends one chunk, a
`ToolStatusEvent` appends one `(tool, status)` record. -/
def consumeJobStep (st : String × List String × List (String × String))
    (e : AgentEvt) : String × List String × List (String × String) :=
  match e with
  | .text c => (st.1 ++ c, st.2.1 ++ [c], st.2.2)
  | .toolStatus toolName _ status => (st.1, st.2.1, st.2.2 ++ [(toolName, status)])

/-- The `async for` loop of `_run_job` folded over the consumed events,
starting from the empty accumulators (jobs.py line 61 and 62-72). -/
def consumeJobEvents (events : List AgentEvt) :
    String × List String × List (String × String) :=
  events.foldl consumeJobStep ("", [], [])

/-- Final job-record fields relevant to the claims. -/
structure JobRecord where
  status : String
  outputChunks : List String
  toolEvents : List (String × String)
  error : Option String
  deriving Repr, DecidableEq

/-- How one `_run_job` execution ends: the stream is consumed to the end
(normal completion), or an `asyncio.CancelledError` arrives at an await
point — all of which lie inside the `async for`, since the history append
at jobs.py lines 74-78 contains no await — after a prefix of the events,
or the run raises after a prefix. -/
inductive RunStreamResult where
  | completed (events : List AgentEvt)
  | cancelled (consumed : List AgentEvt)
  | failed (consumed : List AgentEvt) (error : String)
  deriving Repr, DecidableEq

/-- `_run_job` (jobs.py lines 40-87), given the session's persisted history
as loaded at line 75: on normal completion the concatenated text is
appended to the history as one assistant message, the history is saved,
and the status becomes `completed`; on `CancelledError` (resp. any other
exception) the status becomes `cancelled` (resp. `failed`) and the history
is untouched.  Returns the final job record and the persisted history
after the run. -/
def runJobModel (persisted : List Msg) (stream : RunStreamResult) :
    JobRecord × List Msg :=
  match stream with
  | .completed events =>
      let st := consumeJobEvents events
      ({ status := "completed", outputChunks := st.2.1, toolEvents := st.2.2,
         error := none },
       persisted ++ [{ role := "assistant", content := st.1 }])
  | .cancelled consumed =>
      let st := consumeJobEvents consumed
      ({ status := "cancelled", outputChunks := st.2.1, toolEvents := st.2.2,
         error := none }, persisted)
  | .failed consumed err =>
      let st := consumeJobEvents consumed
      ({ status := "failed", outputChunks := st.2.1, toolEvents := st.2.2,
         error := some err }, persisted)

/-- `submit_job`, the existing-session branch (jobs.py lines 117-124): the
persisted history is loaded, the submitted messages are appended only to
the in-memory copy handed to the agent, and nothing is saved back to the
store in this branch.  Returns
`(agent_messages, persisted store after submit)`. -/
def submitJobExistingSession (persisted : List Msg) (submitted : List Msg) :
    List Msg × List Msg :=
  (persisted ++ submitted, persisted)

/-- The history persistence of the synchronous chat endpoint with an
existing session (chat.py lines 100-102 and 191-195): the stored history
plus the request messages plus the final assistant reply is saved back. -/
def chatEndpointPersist (persisted : List Msg) (submitted : List Msg)
    (assistantText : String) : List Msg :=
  (persisted ++ submitted) ++ [{ role := "assistant", content := assistantText }]

/-- Specification-side view: the text contents of a list of stream events,
in order. -/
def textContents (events : List AgentEvt) : List String :=
  events.filterMap fun e =>
    match e with
    | .text c => some c
    | .toolStatus _ _ _ => none

/-- Specification-side view: the `(tool, status)` pairs of a list of
stream events, in order. -/
def toolStatusPairs (events : List AgentEvt) : List (String × String) :=
  events.filterMap fun e =>
    match e with
    | .text _ => none
    | .toolStatus toolName _ status => some (toolName, status)

/-! ## `backend/agent.py` — the `AgentLoop` run skeleton -/

/-- A parsed tool call as the loop receives it (`ToolCall` /
`ToolCallFunction`, llm_backend.py lines 18-26).  The argument dict is
carried in its JSON-serialized form (the form `json.dumps` stores into the
assistant message at agent.py line 347); the loop itself never inspects
it. -/
structure AToolCall where
  id : String
  fnName : String
  fnArguments : String
  deriving Repr, DecidableEq

/-- One entry of the loop's working message list (the dict shapes built at
agent.py lines 337-362, plus the seed system/user messages). -/
structure ChatMsg where
  role : String
  content : Option String := none
  toolCalls : List AToolCall := []
  name : Option String := none
  toolCallId : Option String := none
  deriving Repr, DecidableEq

/-- `LLMResponse` (llm_backend.py lines 28-32); the finish reason carries
no claim here. -/
structure LLMResp where
  content : Option String := none
  toolCalls : Option (List AToolCall) := none
  deriving Repr, DecidableEq

/-- `if not response.tool_calls:` (agent.py line 444) — Python falsiness
of `None` and of the empty list. -/
def LLMResp.hasToolCalls (r : LLMResp) : Bool :=
  match r.toolCalls with
  | none => false
  | some [] => false
  | some (_ :: _) => true

/-- The tool-call list of a response (empty when `None`). -/
def LLMResp.toolCallList (r : LLMResp) : List AToolCall := r.toolCalls.getD []

/-- `_build_assistant_tool_msg` (agent.py lines 337-352). -/
def buildAssistantToolMsg (toolCalls : List AToolCall) : ChatMsg :=
  { role := "assistant", content := none, toolCalls := toolCalls }

/-- `_build_tool_result_msg` (agent.py lines 354-362), with the
serialized, budget-truncated result content supplied by the caller (the
serialization and `_truncate_tool_result` composition is analysed
separately as `truncateToolResult`). -/
def buildToolResultMsg (tc : AToolCall) (serializedContent : String) : ChatMsg :=
  { role := "tool", name := some tc.fnName, content := some serializedContent,
    toolCallId := some tc.id }

/-- `_execute_tools_parallel` (agent.py lines 231-237): `asyncio.gather`
over one task per call returns the result list in task order — the order
of `tool_calls` — whatever order the concurrent tasks complete in.  The
per-call execution (`execute_tool`, agent.py lines 204-229, which already
catches exceptions into `\x7bsuccess: False\x7d` results) is the oracle
`exec`. -/
def executeToolsParallel {R : Type} (exec : AToolCall → R)
    (toolCalls : List AToolCall) : List R :=
  toolCalls.map exec

/-- The event block one streaming iteration emits for its tool batch
(`run_stream`, agent.py lines 506-527): one `started` event per call in
the order of the assistant message's tool calls, then — only after
`_execute_tools_parallel` (i.e. `asyncio.gather`) has joined **all**
concurrent tasks — one `completed`/`failed` event per call, produced by
iterating `zip(tool_calls, results)`, hence again in input order.
`success` reads `result.get("success", True)`. -/
def toolBatchEvents {R : Type} (success : R → Bool) (toolCalls : List AToolCall)
    (results : List R) : List AgentEvt :=
  (toolCalls.map fun tc => AgentEvt.toolStatus tc.fnName tc.id "started") ++
  ((toolCalls.zip results).map fun p =>
    AgentEvt.toolStatus p.1.fnName p.1.id
      (if success p.2 then "completed" else "failed"))

/-- Modelled from the spec words of the claim: the `completed`/`failed`
events listed in an *actual completion order* of the concurrently running
tools, given as the list of input positions in the order the tools
finished. -/
def completionOrderEvents {R : Type} (success : R → Bool)
    (toolCalls : List AToolCall) (results : List R)
    (completionOrder : List Nat) : List AgentEvt :=
  completionOrder.filterMap fun i =>
    ((toolCalls.zip results).get? i).map fun p =>
      AgentEvt.toolStatus p.1.fnName p.1.id
        (if success p.2 then "completed" else "failed")

/-- The `completed`/`failed` tool-status events of an emitted event list,
in emission order. -/
def completedPart (events : List AgentEvt) : List AgentEvt :=
  events.filter fun e =>
    match e with
    | .toolStatus _ _ s => s == "completed" || s == "failed"
    | .text _ => false

/-- The `started` tool-status events of an emitted event list, in
emission order. -/
def startedPart (events : List AgentEvt) : List AgentEvt :=
  events.filter fun e =>
    match e with
    | .toolStatus _ _ s => s == "started"
    | .text _ => false

/-- The appends of one tool-calling iteration of `run` (agent.py lines
447-453): the assistant message carrying the ordered tool calls,
immediately followed by one tool message per call, built from
`zip(tool_calls, results)` in input order.  `contentOf` stands for
`json.dumps` composed with `_truncate_tool_result` on the call's
result. -/
def appendToolBlock {R : Type} (contentOf : AToolCall → R → String)
    (msgs : List ChatMsg) (toolCalls : List AToolCall) (results : List R) :
    List ChatMsg :=
  msgs ++ buildAssistantToolMsg toolCalls ::
    ((toolCalls.zip results).map fun p => buildToolResultMsg p.1 (contentOf p.1 p.2))

/-- `_compress_old_iterations` (agent.py lines 392-414): no-op on the
first iteration or with fewer than two recorded boundaries; otherwise
every tool message below the current iteration's boundary
(`boundaries[-1]`) whose content exceeds 200 chars is replaced by the
one-line summary `[<name> result — <first-100-chars, newlines as
spaces>...]`.  The `break` at the boundary of the index-increasing scan
equals leaving all later indices unchanged. -/
def compressOldIterations (msgs : List ChatMsg) (boundaries : List Nat)
    (currentIteration : Nat) : List ChatMsg :=
  if currentIteration = 0 ∨ boundaries.length < 2 then msgs
  else
    match boundaries.getLast? with
    | none => msgs
    | some oldBoundary =>
        msgs.mapIdx fun i m =>
          if oldBoundary ≤ i then m
          else if m.role ≠ "tool" then m
          else
            let c := m.content.getD ""
            if c.length ≤ 200 then m
            else
              { m with content := some ("[" ++ m.name.getD "tool" ++ " result — " ++
                  (pySlice c 100).replace "\n" " " ++ "...]") }

/-- One model call of a blocking run: the tool list attached (`none` for
the forced final call) and the response returned. -/
structure ModelCall where
  tools : Option (List FnSchema)
  resp : LLMResp
  deriving Repr, DecidableEq

/-- The observable outcome of `AgentLoop.run`: the returned text, the
trace of model calls in order, the number of iterations that executed a
tool batch, and the final working message list. -/
structure RunResult where
  content : String
  trace : List ModelCall
  toolIterations : Nat
  msgs : List ChatMsg
  deriving Repr, DecidableEq

/-- The loop of `AgentLoop.run` (agent.py lines 430-465), by structural
recursion on the remaining loop iterations (`fuel`), with `iteration` the
Python loop variable.  Each pass records the boundary, calls the model
with the cached schema list, returns the text when the response carries no
tool calls, and otherwise appends the assistant/tool messages, compresses
old iterations and continues; when the range is exhausted, one final model
call is made **without tools** (lines 458-465) and its text is returned.
The stop flag is taken as clear: cancellation is outside this model. -/
def runFrom {R : Type} (respond : List ChatMsg → Option (List FnSchema) → LLMResp)
    (exec : AToolCall → R) (contentOf : AToolCall → R → String)
    (toolSchemas : Option (List FnSchema)) :
    Nat → Nat → List ChatMsg → List Nat → List ModelCall → Nat → RunResult
  | _iteration, 0, msgs, _boundaries, trace, toolIterations =>
      let resp := respond msgs none
      { content := resp.content.getD "", trace := trace ++ [⟨none, resp⟩],
        toolIterations := toolIterations, msgs := msgs }
  | iteration, fuel + 1, msgs, boundaries, trace, toolIterations =>
      let boundaries1 := boundaries ++ [msgs.length]
      let resp := respond msgs toolSchemas
      let trace1 := trace ++ [⟨toolSchemas, resp⟩]
      if resp.hasToolCalls then
        let tcs := resp.toolCallList
        let results := executeToolsParallel exec tcs
        let msgs1 := appendToolBlock contentOf msgs tcs results
        let msgs2 := compressOldIterations msgs1 boundaries1 iteration
        runFrom respond exec contentOf toolSchemas (iteration + 1) fuel msgs2
          boundaries1 trace1 (toolIterations + 1)
      else
        { content := resp.content.getD "", trace := trace1,
          toolIterations := toolIterations, msgs := msgs }

/-- `AgentLoop.run` (agent.py lines 420-465): the system prompt (built
once per run) is prepended to the caller's messages, and the loop runs
with `AGENT_MAX_ITERATIONS` iterations. -/
def runModel {R : Type} (respond : List ChatMsg → Option (List FnSchema) → LLMResp)
    (exec : AToolCall → R) (contentOf : AToolCall → R → String)
    (toolSchemas : Option (List FnSchema)) (systemPrompt : String)
    (messages : List ChatMsg) : RunResult :=
  runFrom respond exec contentOf toolSchemas 0 AGENT_MAX_ITERATIONS
    ({ role := "system", content := some systemPrompt } :: messages) [] [] 0

/-- One model call of a streaming run: the tool list attached, the text
chunks whose `TextEvent`s were re-emitted, and the collected terminal
tool-call event, if any (`collected_tool_event`, agent.py lines
487-498). -/
structure StreamCall where
  tools : Option (List FnSchema)
  texts : List String
  collected : Option (List AToolCall)
  deriving Repr, DecidableEq

/-- The observable outcome of `AgentLoop.run_stream`. -/
structure StreamRunResult where
  events : List AgentEvt
  trace : List StreamCall
  toolIterations : Nat
  msgs : List ChatMsg
  deriving Repr, DecidableEq

/-- The loop of `AgentLoop.run_stream` (agent.py lines 481-541).  The
streaming model call is the oracle `respondS`, returning the re-emitted
text chunks and the collected terminal tool-call event.  When no terminal
event arrived, the generator returns (line 500-501).  Otherwise the
assistant message is appended, the `started` / `completed` / `failed`
status events of `toolBatchEvents` are emitted around the parallel batch,
the tool messages are appended in `zip` order, old iterations are
compressed, and the loop continues.  (A collected event with an empty
call list — which the backend never produces, since `chat_stream` only
yields a terminal event when calls accumulated — would still count as
truthy, as in the source.)  After the range is exhausted, one final
tool-less streaming call is made and only its `TextEvent`s are re-emitted
(lines 534-541). -/
def runStreamFrom {R : Type}
    (respondS : List ChatMsg → Option (List FnSchema) → List String × Option (List AToolCall))
    (exec : AToolCall → R) (success : R → Bool)
    (contentOf : AToolCall → R → String)
    (toolSchemas : Option (List FnSchema)) :
    Nat → Nat → List ChatMsg → List Nat → List StreamCall → List AgentEvt → Nat →
      StreamRunResult
  | _iteration, 0, msgs, _boundaries, trace, events, toolIterations =>
      let r := respondS msgs none
      { events := events ++ r.1.map AgentEvt.text,
        trace := trace ++ [⟨none, r.1, r.2⟩],
        toolIterations := toolIterations, msgs := msgs }
  | iteration, fuel + 1, msgs, boundaries, trace, events, toolIterations =>
      let boundaries1 := boundaries ++ [msgs.length]
      let r := respondS msgs toolSchemas
      let trace1 := trace ++ [⟨toolSchemas, r.1, r.2⟩]
      let events1 := events ++ r.1.map AgentEvt.text
      match r.2 with
      | none =>
          { events := events1, trace := trace1,
            toolIterations := toolIterations, msgs := msgs }
      | some tcs =>
          let msgs1 := msgs ++ [buildAssistantToolMsg tcs]
          let results := executeToolsParallel exec tcs
          let events2 := events1 ++ toolBatchEvents success tcs results
          let msgs2 := msgs1 ++
            ((tcs.zip results).map fun p => buildToolResultMsg p.1 (contentOf p.1 p.2))
          let msgs3 := compressOldIterations msgs2 boundaries1 iteration
          runStreamFrom respondS exec success contentOf toolSchemas (iteration + 1)
            fuel msgs3 boundaries1 trace1 events2 (toolIterations + 1)

/-- `AgentLoop.run_stream` (agent.py lines 471-541). -/
def runStreamModel {R : Type}
    (respondS : List ChatMsg → Option (List FnSchema) → List String × Option (List AToolCall))
    (exec : AToolCall → R) (success : R → Bool)
    (contentOf : AToolCall → R → String)
    (toolSchemas : Option (List FnSchema)) (systemPrompt : String)
    (messages : List ChatMsg) : StreamRunResult :=
  runStreamFrom respondS exec success contentOf toolSchemas 0 AGENT_MAX_ITERATIONS
    ({ role := "system", content := some systemPrompt } :: messages) [] [] [] 0

/-! ## `backend/core/llm_backend.py` — `chat_stream` -/

/-- One tool-call delta inside a streamed chunk
(`delta["tool_calls"][k]`): the backend-assigned `index`, an optional
`id`, and the optional `function.name` / `function.arguments` string
fragments (the `function` sub-dict is flattened into its two optional
fields). -/
structure ToolCallDelta where
  index : Option Nat := none
  id : Option String := none
  fnName : Option String := none
  fnArguments : Option String := none
  deriving Repr, DecidableEq

/-- `choices[0].delta` of a streamed chunk. -/
structure StreamDelta where
  content : Option String := none
  toolCalls : Option (List ToolCallDelta) := none
  deriving Repr, DecidableEq

/-- One choice of a streamed chunk: its delta and its finish reason. -/
structure StreamChoice where
  delta : StreamDelta
  finishReason : Option String := none
  deriving Repr, DecidableEq

/-- One parsed SSE data chunk (`json.loads(data_str)`): only its
`choices` list matters to `chat_stream`.  Non-`data:` lines, the `[DONE]`
sentinel and undecodable JSON are skipped upstream (llm_backend.py lines
183-193) and are not part of this model. -/
structure StreamChunk where
  choices : List StreamChoice
  deriving Repr, DecidableEq

/-- One accumulator entry of `pending_tool_calls` (llm_backend.py line
173): `\x7bid, name, arguments_str\x7d`. -/
structure PendingEntry where
  id : String
  name : String
  argumentsStr : String
  deriving Repr, DecidableEq

/-- Arguments of a reconstructed tool call: the JSON value parsed from
the accumulated string, or the raw-string fallback `\x7b"_raw": s\x7d`
(llm_backend.py lines 229-232).  `J` is the abstract type of parsed JSON
values; `json.loads` is the oracle `parse`. -/
inductive ArgsVal (J : Type) where
  | parsed (value : J)
  | raw (s : String)
  deriving Repr, DecidableEq

/-- A reconstructed streamed tool call. -/
structure SToolCall (J : Type) where
  id : String
  name : String
  args : ArgsVal J
  deriving Repr, DecidableEq

/-- The events `chat_stream` yields: `TextEvent`s and the terminal
`ToolCallDeltaEvent`. -/
inductive BStreamEvt (J : Type) where
  | text (content : String)
  | toolCallsEvt (toolCalls : List (SToolCall J)) (finishReason : String)
  deriving Repr, DecidableEq

/-- `tc_delta.get("index", 0)`. -/
def deltaIdx (d : ToolCallDelta) : Nat := d.index.getD 0

/-- Processing of one tool-call delta (llm_backend.py lines 209-222): a
first delta for `idx` installs an entry with
`id = tc_delta.get("id", f"call_\x7bidx\x7d")` and empty strings; then
the optional `function.name` / `function.arguments` fragments are
appended to the entry at `idx` (appending the empty string when a
fragment is absent). -/
def applyToolCallDelta (pending : List (Nat × PendingEntry))
    (d : ToolCallDelta) : List (Nat × PendingEntry) :=
  let idx := deltaIdx d
  let pending1 :=
    if (pending.lookup idx).isSome then pending
    else pending ++ [(idx, { id := d.id.getD ("call_" ++ toString idx),
                             name := "", argumentsStr := "" })]
  pending1.map fun p =>
    if p.1 = idx then
      (p.1, { p.2 with
              name := p.2.name ++ d.fnName.getD "",
              argumentsStr := p.2.argumentsStr ++ d.fnArguments.getD "" })
    else p

/-- Processing of one chunk (llm_backend.py lines 195-222): a chunk with
an empty `choices` list is skipped; a truthy (non-null, non-empty) finish
reason replaces the running one; a truthy `content` yields one
`TextEvent`; each tool-call delta updates the accumulators.  State:
`(pending_tool_calls, finish_reason)`; the second component of the result
is the list of text contents this chunk yields. -/
def chatStreamStep (st : List (Nat × PendingEntry) × String)
    (chunk : StreamChunk) :
    (List (Nat × PendingEntry) × String) × List String :=
  match chunk.choices with
  | [] => (st, [])
  | choice :: _ =>
      let finish1 := match choice.finishReason with
        | some f => if f = "" then st.2 else f
        | none => st.2
      let texts := match choice.delta.content with
        | some c => if c = "" then [] else [c]
        | none => []
      let pending1 := match choice.delta.toolCalls with
        | some ds => ds.foldl applyToolCallDelta st.1
        | none => st.1
      ((pending1, finish1), texts)

/-- One reconstructed call from an accumulator entry (llm_backend.py
lines 227-236): parse the accumulated arguments string as JSON, falling
back to the `_raw` wrapper. -/
def mkStreamToolCall {J : Type} (parse : String → Option J)
    (e : PendingEntry) : SToolCall J :=
  { id := e.id, name := e.name,
    args := match parse e.argumentsStr with
      | some v => ArgsVal.parsed v
      | none => ArgsVal.raw e.argumentsStr }

/-- `chat_stream` (llm_backend.py lines 156-237) over the parsed chunk
sequence: the `TextEvent`s in arrival order, then — iff any accumulator
exists — exactly one terminal event whose calls follow
`sorted(pending_tool_calls.keys())` and whose finish reason is the
running one (initially `"stop"`). -/
def chatStreamModel {J : Type} (parse : String → Option J)
    (chunks : List StreamChunk) : List (BStreamEvt J) :=
  let r := chunks.foldl
    (fun acc chunk =>
      let s := chatStreamStep acc.1 chunk
      (s.1, acc.2 ++ s.2))
    (([], "stop"), [])
  let pending := r.1.1
  let finish := r.1.2
  (r.2.map BStreamEvt.text) ++
  (if pending = [] then []
   else
     [BStreamEvt.toolCallsEvt
       (((pending.map Prod.fst).mergeSort (fun a b => a ≤ b)).filterMap
         (fun i => (pending.lookup i).map (mkStreamToolCall parse)))
       finish])

/-! Specification-side views of the accumulation, written by direct
recursion over the chunk/delta structure, to be compared with the
stateful fold above. -/

/-- The `choices[0]` of each chunk that has choices. -/
def chunkChoices (chunks : List StreamChunk) : List StreamChoice :=
  chunks.filterMap (fun ch => ch.choices.head?)

/-- All tool-call deltas processed by the stream, in order. -/
def flatToolCallDeltas (chunks : List StreamChunk) : List ToolCallDelta :=
  ((chunkChoices chunks).map (fun c => c.delta.toolCalls.getD [])).flatten

/-- The deltas carrying index `i`, in order. -/
def deltasAtIn (i : Nat) (ds : List ToolCallDelta) : List ToolCallDelta :=
  ds.filter (fun d => deltaIdx d == i)

/-- The concatenation of the `function.name` fragments at index `i`. -/
def namesIn (i : Nat) (ds : List ToolCallDelta) : String :=
  String.join ((deltasAtIn i ds).filterMap (fun d => d.fnName))

/-- The concatenation of the `function.arguments` fragments at index
`i`. -/
def argsIn (i : Nat) (ds : List ToolCallDelta) : String :=
  String.join ((deltasAtIn i ds).filterMap (fun d => d.fnArguments))

/-- The id installed for index `i`: the first delta at `i` supplies it,
defaulting to `call_<i>`. -/
def firstIdIn (i : Nat) (ds : List ToolCallDelta) : String :=
  match deltasAtIn i ds with
  | [] => "call_" ++ toString i
  | d :: _ => d.id.getD ("call_" ++ toString i)

/-- The indices not in `ks` in order of first occurrence. -/
def newIndicesIn (ks : List Nat) : List ToolCallDelta → List Nat
  | [] => []
  | d :: rest =>
      if deltaIdx d ∈ ks then newIndicesIn ks rest
      else deltaIdx d :: newIndicesIn (deltaIdx d :: ks) rest

/-- The accumulator entry index `i` ends up with. -/
def specEntry (i : Nat) (ds : List ToolCallDelta) : PendingEntry :=
  { id := firstIdIn i ds, name := namesIn i ds, argumentsStr := argsIn i ds }

/-- The finish reasons carried by `choices[0]` of the chunks, in order
(including empty strings: these are non-null). -/
def finishReasons (chunks : List StreamChunk) : List String :=
  (chunkChoices chunks).filterMap (fun c => c.finishReason)

/-- Modelled from the spec words of the claim: the most recent **non-null**
finish reason seen in any chunk. -/
def lastNonNullFinish (chunks : List StreamChunk) : Option String :=
  (finishReasons chunks).getLast?

/-- The most recent truthy (non-null **and non-empty**) finish reason,
defaulting to `"stop"` — the running value the code keeps. -/
def lastTruthyFinish (chunks : List StreamChunk) : String :=
  (((finishReasons chunks).filter (fun f => ¬ f = "")).getLast?).getD "stop"

/-- The text contents the stream yields, in order: the truthy `content`
fields of the `choices[0]` deltas. -/
def streamTexts (chunks : List StreamChunk) : List String :=
  (chunkChoices chunks).filterMap (fun c =>
    match c.delta.content with
    | some s => if s = "" then none else some s
    | none => none)

/-! ## Theorems -/

/-- C1 (code_bug evidence): the schema list built by `_build_tool_schemas`
for the enabled set `AVAILABLE_TOOLS` contains schemas for only seven of
the eight enabled tools, in canonical order, and contains **no** schema
whose function name is `"memory"` (the `TOOL_SCHEMAS` table keys the memory
tool as `"memo"`, so the lookup fails and the tool is skipped); no schema
retains a `session_id` property or required entry. -/
theorem c1_memory_schema_missing :
    buildToolSchemas.map (·.name) =
      ["websearch", "python_coder", "rag", "file_reader", "file_writer",
       "file_navigator", "shell_exec"] ∧
    "memory" ∈ AVAILABLE_TOOLS ∧
    buildToolSchemas.countP (fun s => s.name = "memory") = 0 ∧
    buildToolSchemas.all
      (fun s => "session_id" ∉ s.propNames ∧ "session_id" ∉ s.required) := by
  refine ⟨by decide, by decide, by decide, by decide⟩

set_option maxRecDepth 20000 in
/-- C7 counterexample: for a 501-character `memory` result (budget 500),
the serialized content fed back to the model is 531 characters long, which
exceeds the claimed bound `budget + len("...[truncated, N chars total]")`
= 500 + 30 = 530 — the code prepends a newline to the marker, so the claim
as stated is off by one character. -/
theorem c7_counterexample :
    ¬ ((truncateToolResult "memory" (some "sess1") "ab12cd34"
          (String.mk (List.replicate 501 'x'))).1.length ≤
        budgetFor "memory" +
          (claimTruncationMarker (String.mk (List.replicate 501 'x')).length).length) := by
  decide

/-- C7 amended: every tool result fed back to the model has length at most
the tool's per-tool character budget plus the length of the truncation
marker *including its leading newline*,
`"\n...[truncated, N chars total]"`; and whenever the content exceeds the
budget and a (truthy) session id is present, the full untruncated content
is saved to the per-session overflow directory keyed by the short random
call id. -/
theorem c7_result_budget (toolName : String) (sessionId : Option String)
    (callId : String) (content : String) :
    (truncateToolResult toolName sessionId callId content).1.length ≤
      budgetFor toolName + (truncationMarker content.length).length ∧
    (∀ sid, sessionId = some sid → sid ≠ "" →
      budgetFor toolName < content.length →
      (truncateToolResult toolName sessionId callId content).2 =
        some (sid, callId, content)) := by
  constructor
  · by_cases h : content.length ≤ budgetFor toolName
    · have h1 : (truncateToolResult toolName sessionId callId content).1 = content := by
        unfold truncateToolResult
        rw [if_pos h]
      rw [h1]
      exact Nat.le_trans h (Nat.le_add_right _ _)
    · have h1 : (truncateToolResult toolName sessionId callId content).1 =
          pySlice content (budgetFor toolName) ++ truncationMarker content.length := by
        unfold truncateToolResult
        rw [if_neg h]
      have h2 : (pySlice content (budgetFor toolName) ++
          truncationMarker content.length).length =
          (content.data.take (budgetFor toolName)).length +
            (truncationMarker content.length).data.length :=
        List.length_append _ _
      rw [h1]
      show (pySlice content (budgetFor toolName) ++
          truncationMarker content.length).length ≤ _
      rw [h2]
      have h3 : (content.data.take (budgetFor toolName)).length ≤ budgetFor toolName := by
        rw [List.length_take]
        exact Nat.min_le_left _ _
      have h4 : (truncationMarker content.length).length =
          (truncationMarker content.length).data.length := rfl
      omega
  · intro sid hsid hne hlt
    have h : ¬ content.length ≤ budgetFor toolName := by omega
    unfold truncateToolResult
    rw [if_neg h]
    subst hsid
    simp [hne]

set_option maxRecDepth 20000 in
/-- C7 witness: the amended bound and the overflow save evaluated at a
concrete 501-character `memory` result with session id `sess1`. -/
theorem c7_result_budget_witness :
    (truncateToolResult "memory" (some "sess1") "ab12cd34"
        (String.mk (List.replicate 501 'x'))).1.length ≤
      budgetFor "memory" +
        (truncationMarker (String.mk (List.replicate 501 'x')).length).length ∧
    (truncateToolResult "memory" (some "sess1") "ab12cd34"
        (String.mk (List.replicate 501 'x'))).2 =
      some ("sess1", "ab12cd34", String.mk (List.replicate 501 'x')) :=
  ⟨(c7_result_budget "memory" (some "sess1") "ab12cd34" _).1,
   (c7_result_budget "memory" (some "sess1") "ab12cd34" _).2 "sess1" rfl
     (by decide) (by decide)⟩


/-- C2 (code_bug evidence): a `POST /v1/chat/completions` request carrying
a non-empty (truthy) `session_id` with no matching session never starts an
agent run, but it fails with HTTP **500**, not 404: the
`HTTPException(404, "Session not found")` raised at chat.py line 99 is
caught by the blanket `except Exception` at line 211 and re-raised as
`HTTPException(500, str(e))`.  An **empty-string** `session_id`, by
contrast, is falsy at line 96: the handler creates a fresh session and
proceeds to the agent run (second conjunct). -/
theorem c2_missing_session_returns_500 (sessions : List String) (sid : String)
    (downstreamStarted : Bool) (downstreamOutcome : Except PyExc Unit)
    (h : sid ∉ sessions) (hne : sid ≠ "") :
    chatCompletionsModel true sessions (some sid) downstreamStarted downstreamOutcome =
      { status := 500, detail := some ("404" ++ ": " ++ "Session not found"),
        agentStarted := false } ∧
    chatCompletionsModel true sessions (some "") downstreamStarted (.ok ()) =
      { status := 200, detail := none, agentStarted := downstreamStarted } := by
  constructor
  · unfold chatCompletionsModel
    simp [h, hne, pyExcStr]
    decide
  · unfold chatCompletionsModel
    simp

/-- C2 witness: concrete evaluation — session store holding only `abc`,
request carrying the non-empty session id `missing`. -/
theorem c2_missing_session_returns_500_witness :
    "missing" ∉ ["abc"] ∧ ("missing" : String) ≠ "" ∧
    chatCompletionsModel true ["abc"] (some "missing") true (.ok ()) =
      { status := 500, detail := some ("404" ++ ": " ++ "Session not found"),
        agentStarted := false } :=
  ⟨by decide, by decide,
   (c2_missing_session_returns_500 ["abc"] "missing" true (.ok ())
     (by decide) (by decide)).1⟩


/-- C8: for every `rag` tool call dispatched by the loop, if the requested
`collection_name` is absent or not among the collections owned by the
current user, the loop returns an early error whose
`available_collections` field is exactly the user's collection list (`[]`
when the user has none) without invoking `RAGTool.retrieve`; the body is
invoked exactly when the requested name is in the user's collection set. -/
theorem c8_rag_loop_validation {ρ : Type} (available : List String)
    (requested : Option String) (queryArg : String) (maxResultsArg : Option Nat)
    (retrieve : String → String → Option Nat → ρ) :
    ((∀ r, requested = some r → r ∉ available) →
      (dispatchRag available requested queryArg maxResultsArg retrieve).2 = false ∧
      (dispatchRag available requested queryArg maxResultsArg retrieve).1.isBody = false ∧
      (dispatchRag available requested queryArg maxResultsArg retrieve).1.availableOf =
        some available) ∧
    (∀ r, requested = some r → r ∈ available →
      (dispatchRag available requested queryArg maxResultsArg retrieve).2 = true ∧
      (dispatchRag available requested queryArg maxResultsArg retrieve).1 =
        .body (retrieve r queryArg maxResultsArg)) := by
  constructor
  · intro hnot
    by_cases hav : available = []
    · subst hav
      cases requested with
      | none =>
          simp [dispatchRag, RagDispatchResult.isBody, RagDispatchResult.availableOf]
      | some r =>
          simp [dispatchRag, RagDispatchResult.isBody, RagDispatchResult.availableOf]
    · cases requested with
      | none =>
          simp [dispatchRag, hav, RagDispatchResult.isBody, RagDispatchResult.availableOf]
      | some r =>
          have hr : r ∉ available := hnot r rfl
          simp [dispatchRag, hav, hr, RagDispatchResult.isBody,
            RagDispatchResult.availableOf]
  · intro r hreq hmem
    subst hreq
    have hav : available ≠ [] := by
      intro hav
      rw [hav] at hmem
      exact (List.not_mem_nil r) hmem
    simp [dispatchRag, hav, hmem]

/-- C8 witness: with the user owning only collection `docs`, a request for
`nope` is rejected without invoking the body and reports
`available_collections = ["docs"]`; a request for `docs` reaches the body. -/
theorem c8_rag_loop_validation_witness :
    ((dispatchRag ["docs"] (some "nope") "q" none (fun c q m => (c, q, m))).2 = false ∧
     (dispatchRag ["docs"] (some "nope") "q" none (fun c q m => (c, q, m))).1.availableOf =
       some ["docs"]) ∧
    ((dispatchRag ["docs"] (some "docs") "q" none (fun c q m => (c, q, m))).2 = true ∧
     (dispatchRag ["docs"] (some "docs") "q" none (fun c q m => (c, q, m))).1 =
       .body ("docs", "q", none)) := by
  constructor
  · have h := (c8_rag_loop_validation ["docs"] (some "nope") "q" none
      (fun c q m => (c, q, m))).1 (by intro r hr hmem; cases hr; revert hmem; decide)
    exact ⟨h.1, h.2.2⟩
  · exact (c8_rag_loop_validation ["docs"] (some "docs") "q" none
      (fun c q m => (c, q, m))).2 "docs" rfl (by decide)

theorem strData_append (a b : String) : (a ++ b).data = a.data ++ b.data := by
  cases a
  cases b
  rfl

theorem strJoin_cons (c : String) (l : List String) :
    String.join (c :: l) = c ++ String.join l := by
  apply String.ext
  simp [String.data_join, strData_append]

theorem strAppend_assoc (a b c : String) : a ++ b ++ c = a ++ (b ++ c) := by
  apply String.ext
  simp [strData_append]

theorem strAppend_empty (a : String) : a ++ "" = a := by
  apply String.ext
  simp [strData_append]

theorem consumeJob_go (events : List AgentEvt) :
    ∀ (a : String) (cs : List String) (ts : List (String × String)),
      List.foldl consumeJobStep (a, cs, ts) events =
        (a ++ String.join (textContents events),
         cs ++ textContents events,
         ts ++ toolStatusPairs events) := by
  induction events with
  | nil =>
      intro a cs ts
      simp [textContents, toolStatusPairs, String.join, strAppend_empty]
  | cons e rest ih =>
      intro a cs ts
      cases e with
      | text c =>
          simp only [List.foldl_cons, consumeJobStep]
          rw [ih]
          simp [textContents, toolStatusPairs, strJoin_cons, strAppend_assoc]
      | toolStatus toolName toolCallId status =>
          simp only [List.foldl_cons, consumeJobStep]
          rw [ih]
          simp [textContents, toolStatusPairs]

theorem consumeJobEvents_eq (events : List AgentEvt) :
    consumeJobEvents events =
      (String.join (textContents events), textContents events,
       toolStatusPairs events) := by
  unfold consumeJobEvents
  rw [consumeJob_go]
  have h : ("" : String) ++ String.join (textContents events) =
      String.join (textContents events) := by
    apply String.ext
    simp [strData_append]
  rw [h]
  simp

/-- C9: for every background job run, on normal completion the
concatenation of the job's output chunks is appended to the bound
session's persisted history as exactly one assistant message and the
status becomes `completed`; on cancellation or failure the persisted
history is not modified at all, the status becomes `cancelled` or
`failed`, and `output_chunks` holds exactly the text chunks emitted
before the interruption. -/
theorem c9_job_runner_outcomes (persisted : List Msg) (stream : RunStreamResult) :
    (∀ events, stream = .completed events →
      (runJobModel persisted stream).1.status = "completed" ∧
      (runJobModel persisted stream).2 =
        persisted ++
          [{ role := "assistant",
             content := String.join (runJobModel persisted stream).1.outputChunks }]) ∧
    (∀ consumed, stream = .cancelled consumed →
      (runJobModel persisted stream).1.status = "cancelled" ∧
      (runJobModel persisted stream).2 = persisted ∧
      (runJobModel persisted stream).1.outputChunks = textContents consumed) ∧
    (∀ consumed err, stream = .failed consumed err →
      (runJobModel persisted stream).1.status = "failed" ∧
      (runJobModel persisted stream).1.error = some err ∧
      (runJobModel persisted stream).2 = persisted ∧
      (runJobModel persisted stream).1.outputChunks = textContents consumed) := by
  refine ⟨?_, ?_, ?_⟩
  · intro events hev
    subst hev
    simp [runJobModel, consumeJobEvents_eq]
  · intro consumed hev
    subst hev
    simp [runJobModel, consumeJobEvents_eq]
  · intro consumed err hev
    subst hev
    simp [runJobModel, consumeJobEvents_eq]

/-- C9 witness: the three outcomes evaluated on a concrete two-event
stream (one text chunk, one tool event) over a one-message history. -/
theorem c9_job_runner_outcomes_witness :
    ((runJobModel [⟨"user", "hi"⟩]
        (.completed [.text "ok", .toolStatus "memory" "c1" "completed"])).1.status =
      "completed" ∧
     (runJobModel [⟨"user", "hi"⟩]
        (.completed [.text "ok", .toolStatus "memory" "c1" "completed"])).2 =
       [⟨"user", "hi"⟩] ++
         [{ role := "assistant",
            content := String.join (runJobModel [⟨"user", "hi"⟩]
              (.completed [.text "ok", .toolStatus "memory" "c1" "completed"])).1.outputChunks }]) ∧
    ((runJobModel [⟨"user", "hi"⟩] (.cancelled [.text "ok"])).1.status = "cancelled" ∧
     (runJobModel [⟨"user", "hi"⟩] (.cancelled [.text "ok"])).2 = [⟨"user", "hi"⟩] ∧
     (runJobModel [⟨"user", "hi"⟩] (.cancelled [.text "ok"])).1.outputChunks =
       textContents [.text "ok"]) ∧
    ((runJobModel [⟨"user", "hi"⟩] (.failed [.text "ok"] "boom")).1.status = "failed" ∧
     (runJobModel [⟨"user", "hi"⟩] (.failed [.text "ok"] "boom")).1.error = some "boom" ∧
     (runJobModel [⟨"user", "hi"⟩] (.failed [.text "ok"] "boom")).2 = [⟨"user", "hi"⟩] ∧
     (runJobModel [⟨"user", "hi"⟩] (.failed [.text "ok"] "boom")).1.outputChunks =
       textContents [.text "ok"]) :=
  ⟨(c9_job_runner_outcomes [⟨"user", "hi"⟩]
      (.completed [.text "ok", .toolStatus "memory" "c1" "completed"])).1 _ rfl,
   (c9_job_runner_outcomes [⟨"user", "hi"⟩] (.cancelled [.text "ok"])).2.1 _ rfl,
   (c9_job_runner_outcomes [⟨"user", "hi"⟩] (.failed [.text "ok"] "boom")).2.2 _ _ rfl⟩

/-- C10: submitting a job against an existing session passes the stored
history plus the submitted messages to the agent in memory, leaves the
store untouched at submission, and after normal completion the persisted
history is exactly the pre-submission history plus one assistant message
— so a submitted user turn that was not already stored never appears in
the stored conversation; the synchronous chat endpoint, by contrast,
persists every submitted message. -/
theorem c10_submitted_user_turns_not_persisted (persisted submitted : List Msg)
    (events : List AgentEvt) (assistantText : String) :
    (submitJobExistingSession persisted submitted).1 = persisted ++ submitted ∧
    (submitJobExistingSession persisted submitted).2 = persisted ∧
    (runJobModel (submitJobExistingSession persisted submitted).2
        (.completed events)).2 =
      persisted ++
        [{ role := "assistant", content := String.join (textContents events) }] ∧
    (∀ m ∈ submitted, m ∉ persisted → m.role = "user" →
      m ∉ (runJobModel (submitJobExistingSession persisted submitted).2
        (.completed events)).2) ∧
    (∀ m ∈ submitted, m ∈ chatEndpointPersist persisted submitted assistantText) := by
  refine ⟨rfl, rfl, ?_, ?_, ?_⟩
  · simp only [submitJobExistingSession, runJobModel, consumeJobEvents_eq]
  · intro m hmem hnotp hrole hin
    simp only [submitJobExistingSession, runJobModel, consumeJobEvents_eq] at hin
    rcases List.mem_append.mp hin with h | h
    · exact hnotp h
    · rcases List.mem_singleton.mp h with rfl
      simp at hrole
  · intro m hmem
    unfold chatEndpointPersist
    exact List.mem_append.mpr (Or.inl (List.mem_append.mpr (Or.inr hmem)))

/-- C10 witness: a concrete submitted user turn absent from the stored
history does not appear in the post-completion history of the job path,
while the chat path stores it. -/
theorem c10_submitted_user_turns_not_persisted_witness :
    (⟨"user", "hello"⟩ : Msg) ∉
      (runJobModel (submitJobExistingSession [] [⟨"user", "hello"⟩]).2
        (.completed [.text "done"])).2 ∧
    (⟨"user", "hello"⟩ : Msg) ∈ chatEndpointPersist [] [⟨"user", "hello"⟩] "done" :=
  ⟨(c10_submitted_user_turns_not_persisted [] [⟨"user", "hello"⟩] [.text "done"]
      "done").2.2.2.1 ⟨"user", "hello"⟩ (by decide) (by decide) rfl,
   (c10_submitted_user_turns_not_persisted [] [⟨"user", "hello"⟩] [.text "done"]
      "done").2.2.2.2 ⟨"user", "hello"⟩ (by decide)⟩

theorem zipMapSelf {α β γ : Type} (f : α → β) (g : α → β → γ) :
    ∀ l : List α, (l.zip (l.map f)).map (fun p => g p.1 p.2) = l.map fun a => g a (f a)
  | [] => rfl
  | a :: l => by
      simp only [List.map_cons, List.zip_cons_cons]
      rw [zipMapSelf f g l]

theorem countMapSomeNodup :
    ∀ (l : List String), l.Nodup → ∀ x ∈ l, (l.map some).count (some x) = 1 := by
  intro l
  induction l with
  | nil =>
      intro _ x hx
      cases hx
  | cons a l ih =>
      intro hnodup x hx
      rw [List.map_cons, List.count_cons]
      rcases List.mem_cons.mp hx with rfl | hxl
      · have ha : x ∉ l := (List.nodup_cons.mp hnodup).1
        have h0 : (l.map some).count (some x) = 0 := by
          rw [List.count_eq_zero]
          intro hmem
          obtain ⟨y, hy, hxy⟩ := List.mem_map.mp hmem
          cases hxy
          exact ha hy
        simp [h0]
      · have hne : x ≠ a := by
          intro h
          exact (List.nodup_cons.mp hnodup).1 (h ▸ hxl)
        have h1 := ih (List.nodup_cons.mp hnodup).2 x hxl
        have hne2 : ¬ a = x := fun h => hne (Eq.symm h)
        simp [h1, hne, hne2]

/-- C5: the tool-calling iteration of `run` appends one assistant message
whose `tool_calls` list is the model's, in order, immediately followed by
exactly one tool message per call, in the order of the calls — regardless
of completion order, since `gather` returns results in task order — each
carrying the `tool_call_id` of its matching call; when the ids are
distinct, every id of the assistant message occurs exactly once among the
following tool messages. -/
theorem c5_tool_message_pairing {R : Type} (contentOf : AToolCall → R → String)
    (exec : AToolCall → R) (msgs : List ChatMsg) (toolCalls : List AToolCall) :
    (buildAssistantToolMsg toolCalls).toolCalls = toolCalls ∧
    ∃ toolMsgs,
      appendToolBlock contentOf msgs toolCalls (executeToolsParallel exec toolCalls) =
        msgs ++ buildAssistantToolMsg toolCalls :: toolMsgs ∧
      toolMsgs = toolCalls.map
        (fun tc => buildToolResultMsg tc (contentOf tc (exec tc))) ∧
      toolMsgs.map (·.toolCallId) = toolCalls.map (fun tc => some tc.id) ∧
      ((toolCalls.map (·.id)).Nodup →
        ∀ tc ∈ toolCalls,
          (toolMsgs.map (·.toolCallId)).count (some tc.id) = 1) := by
  have hzip : (toolCalls.zip (executeToolsParallel exec toolCalls)).map
      (fun p => buildToolResultMsg p.1 (contentOf p.1 p.2)) =
      toolCalls.map (fun tc => buildToolResultMsg tc (contentOf tc (exec tc))) :=
    zipMapSelf exec (fun tc r => buildToolResultMsg tc (contentOf tc r)) toolCalls
  have hids : (toolCalls.map
      (fun tc => buildToolResultMsg tc (contentOf tc (exec tc)))).map (·.toolCallId) =
      toolCalls.map (fun tc => some tc.id) := by
    rw [List.map_map]
    rfl
  have h1 : toolCalls.map (fun tc => some tc.id) =
      (toolCalls.map (·.id)).map some := by
    rw [List.map_map]
    rfl
  refine ⟨rfl, (toolCalls.zip (executeToolsParallel exec toolCalls)).map
      (fun p => buildToolResultMsg p.1 (contentOf p.1 p.2)), ?_, hzip, ?_, ?_⟩
  · rfl
  · rw [hzip]
    exact hids
  · intro hnodup tc htc
    rw [hzip, hids, h1]
    exact countMapSomeNodup _ hnodup tc.id (List.mem_map_of_mem _ htc)

/-- C5 witness: two concrete `shell_exec` calls with distinct ids — their
block has the assistant message followed by the tool messages in call
order, and each id occurs exactly once. -/
theorem c5_tool_message_pairing_witness :
    ∃ toolMsgs,
      appendToolBlock (fun _ (_ : Unit) => "ok") []
          [⟨"c1", "shell_exec", "a"⟩, ⟨"c2", "shell_exec", "b"⟩]
          (executeToolsParallel (fun _ => ())
            [⟨"c1", "shell_exec", "a"⟩, ⟨"c2", "shell_exec", "b"⟩]) =
        [] ++ buildAssistantToolMsg
          [⟨"c1", "shell_exec", "a"⟩, ⟨"c2", "shell_exec", "b"⟩] :: toolMsgs ∧
      ∀ tc ∈ ([⟨"c1", "shell_exec", "a"⟩, ⟨"c2", "shell_exec", "b"⟩] : List AToolCall),
        (toolMsgs.map (·.toolCallId)).count (some tc.id) = 1 := by
  obtain ⟨-, toolMsgs, hblock, -, -, hcount⟩ :=
    c5_tool_message_pairing (fun _ (_ : Unit) => "ok") (fun _ => ()) []
      [⟨"c1", "shell_exec", "a"⟩, ⟨"c2", "shell_exec", "b"⟩]
  exact ⟨toolMsgs, hblock, hcount (by decide)⟩

/-- C3 counterexample: a batch of two concurrent tool calls `c1`, `c2`
where the actual completion order is `c2` first (completion order
`[1, 0]`): the code emits the `completed` events in input order
`[c1, c2]`, which differs from the claimed actual-completion-order
sequence `[c2, c1]`. -/
theorem c3_counterexample :
    completedPart (toolBatchEvents (fun b : Bool => b)
        [⟨"c1", "shell_exec", "a"⟩, ⟨"c2", "shell_exec", "b"⟩] [true, true]) =
      [.toolStatus "shell_exec" "c1" "completed",
       .toolStatus "shell_exec" "c2" "completed"] ∧
    completionOrderEvents (fun b : Bool => b)
        [⟨"c1", "shell_exec", "a"⟩, ⟨"c2", "shell_exec", "b"⟩] [true, true] [1, 0] =
      [.toolStatus "shell_exec" "c2" "completed",
       .toolStatus "shell_exec" "c1" "completed"] ∧
    completedPart (toolBatchEvents (fun b : Bool => b)
        [⟨"c1", "shell_exec", "a"⟩, ⟨"c2", "shell_exec", "b"⟩] [true, true]) ≠
      completionOrderEvents (fun b : Bool => b)
        [⟨"c1", "shell_exec", "a"⟩, ⟨"c2", "shell_exec", "b"⟩] [true, true] [1, 0] := by
  refine ⟨by decide, by decide, by decide⟩

/-- C3 amended: in each streaming iteration that issues tool calls, the
`started` events are emitted in the order of the tool calls in the
assistant message; the `completed`/`failed` events are emitted only after
the whole concurrent batch has joined, again in the order of the tool
calls in the assistant message (not in actual completion order), with the
status determined by each result's `success` field. -/
theorem c3_tool_status_order {R : Type} (success : R → Bool)
    (exec : AToolCall → R) (toolCalls : List AToolCall) :
    toolBatchEvents success toolCalls (executeToolsParallel exec toolCalls) =
      (toolCalls.map fun tc => AgentEvt.toolStatus tc.fnName tc.id "started") ++
      (toolCalls.map fun tc => AgentEvt.toolStatus tc.fnName tc.id
        (if success (exec tc) then "completed" else "failed")) ∧
    startedPart (toolBatchEvents success toolCalls
        (executeToolsParallel exec toolCalls)) =
      toolCalls.map (fun tc => AgentEvt.toolStatus tc.fnName tc.id "started") ∧
    completedPart (toolBatchEvents success toolCalls
        (executeToolsParallel exec toolCalls)) =
      toolCalls.map (fun tc => AgentEvt.toolStatus tc.fnName tc.id
        (if success (exec tc) then "completed" else "failed")) := by
  have hmain : toolBatchEvents success toolCalls (executeToolsParallel exec toolCalls) =
      (toolCalls.map fun tc => AgentEvt.toolStatus tc.fnName tc.id "started") ++
      (toolCalls.map fun tc => AgentEvt.toolStatus tc.fnName tc.id
        (if success (exec tc) then "completed" else "failed")) := by
    unfold toolBatchEvents executeToolsParallel
    rw [zipMapSelf exec (fun tc r => AgentEvt.toolStatus tc.fnName tc.id
      (if success r then "completed" else "failed")) toolCalls]
  refine ⟨hmain, ?_, ?_⟩
  · rw [hmain]
    unfold startedPart
    rw [List.filter_append]
    have h1 : (toolCalls.map fun tc => AgentEvt.toolStatus tc.fnName tc.id "started").filter
        (fun e => match e with
          | .toolStatus _ _ s => s == "started"
          | .text _ => false) =
        toolCalls.map fun tc => AgentEvt.toolStatus tc.fnName tc.id "started" := by
      rw [List.filter_eq_self]
      intro e he
      obtain ⟨tc, -, rfl⟩ := List.mem_map.mp he
      rfl
    have h2 : (toolCalls.map fun tc => AgentEvt.toolStatus tc.fnName tc.id
        (if success (exec tc) then "completed" else "failed")).filter
        (fun e => match e with
          | .toolStatus _ _ s => s == "started"
          | .text _ => false) = [] := by
      rw [List.filter_eq_nil_iff]
      intro e he
      obtain ⟨tc, -, rfl⟩ := List.mem_map.mp he
      by_cases hs : success (exec tc) <;> simp [hs]
    rw [h1, h2, List.append_nil]
  · rw [hmain]
    unfold completedPart
    rw [List.filter_append]
    have h1 : (toolCalls.map fun tc => AgentEvt.toolStatus tc.fnName tc.id "started").filter
        (fun e => match e with
          | .toolStatus _ _ s => s == "completed" || s == "failed"
          | .text _ => false) = [] := by
      rw [List.filter_eq_nil_iff]
      intro e he
      obtain ⟨tc, -, rfl⟩ := List.mem_map.mp he
      simp
    have h2 : (toolCalls.map fun tc => AgentEvt.toolStatus tc.fnName tc.id
        (if success (exec tc) then "completed" else "failed")).filter
        (fun e => match e with
          | .toolStatus _ _ s => s == "completed" || s == "failed"
          | .text _ => false) =
        toolCalls.map fun tc => AgentEvt.toolStatus tc.fnName tc.id
          (if success (exec tc) then "completed" else "failed") := by
      rw [List.filter_eq_self]
      intro e he
      obtain ⟨tc, -, rfl⟩ := List.mem_map.mp he
      by_cases hs : success (exec tc) <;> simp [hs]
    rw [h1, h2, List.nil_append]

theorem runFrom_spec {R : Type}
    (respond : List ChatMsg → Option (List FnSchema) → LLMResp)
    (exec : AToolCall → R) (contentOf : AToolCall → R → String)
    (toolSchemas : Option (List FnSchema)) :
    ∀ (fuel iteration : Nat) (msgs : List ChatMsg) (boundaries : List Nat)
      (trace : List ModelCall) (toolIterations : Nat),
      ∃ mid last,
        (runFrom respond exec contentOf toolSchemas iteration fuel msgs boundaries
          trace toolIterations).trace = trace ++ mid ++ [last] ∧
        (runFrom respond exec contentOf toolSchemas iteration fuel msgs boundaries
          trace toolIterations).toolIterations ≤ toolIterations + fuel ∧
        (runFrom respond exec contentOf toolSchemas iteration fuel msgs boundaries
          trace toolIterations).content = last.resp.content.getD "" ∧
        (∀ c ∈ mid, c.tools = toolSchemas) ∧
        (((runFrom respond exec contentOf toolSchemas iteration fuel msgs boundaries
            trace toolIterations).toolIterations = toolIterations + fuel ∧
          mid.length = fuel ∧ last.tools = none) ∨
         ((runFrom respond exec contentOf toolSchemas iteration fuel msgs boundaries
            trace toolIterations).toolIterations < toolIterations + fuel ∧
          last.tools = toolSchemas ∧ last.resp.hasToolCalls = false)) := by
  intro fuel
  induction fuel with
  | zero =>
      intro iteration msgs boundaries trace toolIterations
      refine ⟨[], ⟨none, respond msgs none⟩, ?_, ?_, ?_, ?_, ?_⟩
      · simp [runFrom]
      · simp [runFrom]
      · simp [runFrom]
      · intro c hc
        cases hc
      · left
        exact ⟨by simp [runFrom], rfl, rfl⟩
  | succ fuel ih =>
      intro iteration msgs boundaries trace toolIterations
      cases hres : (respond msgs toolSchemas).hasToolCalls with
      | false =>
          have hrun : runFrom respond exec contentOf toolSchemas iteration (fuel + 1)
              msgs boundaries trace toolIterations =
              { content := (respond msgs toolSchemas).content.getD "",
                trace := trace ++ [⟨toolSchemas, respond msgs toolSchemas⟩],
                toolIterations := toolIterations, msgs := msgs } := by
            simp [runFrom, hres]
          refine ⟨[], ⟨toolSchemas, respond msgs toolSchemas⟩, ?_, ?_, ?_, ?_, ?_⟩
          · rw [hrun]
            simp
          · rw [hrun]
            show toolIterations ≤ toolIterations + (fuel + 1)
            omega
          · rw [hrun]
          · intro c hc
            cases hc
          · right
            rw [hrun]
            refine ⟨?_, rfl, hres⟩
            show toolIterations < toolIterations + (fuel + 1)
            omega
      | true =>
          have hrun : runFrom respond exec contentOf toolSchemas iteration (fuel + 1)
              msgs boundaries trace toolIterations =
              runFrom respond exec contentOf toolSchemas (iteration + 1) fuel
                (compressOldIterations
                  (appendToolBlock contentOf msgs (respond msgs toolSchemas).toolCallList
                    (executeToolsParallel exec (respond msgs toolSchemas).toolCallList))
                  (boundaries ++ [msgs.length]) iteration)
                (boundaries ++ [msgs.length])
                (trace ++ [⟨toolSchemas, respond msgs toolSchemas⟩])
                (toolIterations + 1) := by
            simp [runFrom, hres]
          obtain ⟨mid, last, h1, h2, h3, h4, h5⟩ :=
            ih (iteration + 1)
              (compressOldIterations
                (appendToolBlock contentOf msgs (respond msgs toolSchemas).toolCallList
                  (executeToolsParallel exec (respond msgs toolSchemas).toolCallList))
                (boundaries ++ [msgs.length]) iteration)
              (boundaries ++ [msgs.length])
              (trace ++ [⟨toolSchemas, respond msgs toolSchemas⟩])
              (toolIterations + 1)
          refine ⟨⟨toolSchemas, respond msgs toolSchemas⟩ :: mid, last, ?_, ?_, ?_, ?_, ?_⟩
          · rw [hrun, h1]
            simp
          · rw [hrun]
            omega
          · rw [hrun]
            exact h3
          · intro c hc
            rcases List.mem_cons.mp hc with rfl | hc2
            · rfl
            · exact h4 c hc2
          · rcases h5 with ⟨hcap, hlen, htools⟩ | ⟨hlt, ht, hf⟩
            · left
              rw [hrun]
              exact ⟨by omega, by simp [hlen], htools⟩
            · right
              rw [hrun]
              exact ⟨by omega, ht, hf⟩

theorem runStreamFrom_spec {R : Type}
    (respondS : List ChatMsg → Option (List FnSchema) →
      List String × Option (List AToolCall))
    (exec : AToolCall → R) (success : R → Bool)
    (contentOf : AToolCall → R → String)
    (toolSchemas : Option (List FnSchema)) :
    ∀ (fuel iteration : Nat) (msgs : List ChatMsg) (boundaries : List Nat)
      (trace : List StreamCall) (events : List AgentEvt) (toolIterations : Nat),
      ∃ mid last pre,
        (runStreamFrom respondS exec success contentOf toolSchemas iteration fuel
          msgs boundaries trace events toolIterations).trace =
          trace ++ mid ++ [last] ∧
        (runStreamFrom respondS exec success contentOf toolSchemas iteration fuel
          msgs boundaries trace events toolIterations).toolIterations ≤
          toolIterations + fuel ∧
        (∀ c ∈ mid, c.tools = toolSchemas) ∧
        (runStreamFrom respondS exec success contentOf toolSchemas iteration fuel
          msgs boundaries trace events toolIterations).events =
          events ++ pre ++ last.texts.map AgentEvt.text ∧
        (((runStreamFrom respondS exec success contentOf toolSchemas iteration fuel
            msgs boundaries trace events toolIterations).toolIterations =
            toolIterations + fuel ∧
          mid.length = fuel ∧ last.tools = none) ∨
         ((runStreamFrom respondS exec success contentOf toolSchemas iteration fuel
            msgs boundaries trace events toolIterations).toolIterations <
            toolIterations + fuel ∧
          last.tools = toolSchemas ∧ last.collected = none)) := by
  intro fuel
  induction fuel with
  | zero =>
      intro iteration msgs boundaries trace events toolIterations
      refine ⟨[], ⟨none, (respondS msgs none).1, (respondS msgs none).2⟩, [],
        ?_, ?_, ?_, ?_, ?_⟩
      · simp [runStreamFrom]
      · simp [runStreamFrom]
      · intro c hc
        cases hc
      · simp [runStreamFrom]
      · left
        exact ⟨by simp [runStreamFrom], rfl, rfl⟩
  | succ fuel ih =>
      intro iteration msgs boundaries trace events toolIterations
      cases hcol : (respondS msgs toolSchemas).2 with
      | none =>
          have hrun : runStreamFrom respondS exec success contentOf toolSchemas
              iteration (fuel + 1) msgs boundaries trace events toolIterations =
              { events := events ++ (respondS msgs toolSchemas).1.map AgentEvt.text,
                trace := trace ++
                  [⟨toolSchemas, (respondS msgs toolSchemas).1,
                    (respondS msgs toolSchemas).2⟩],
                toolIterations := toolIterations, msgs := msgs } := by
            simp [runStreamFrom, hcol]
          refine ⟨[], ⟨toolSchemas, (respondS msgs toolSchemas).1,
            (respondS msgs toolSchemas).2⟩, [], ?_, ?_, ?_, ?_, ?_⟩
          · rw [hrun]
            simp
          · rw [hrun]
            show toolIterations ≤ toolIterations + (fuel + 1)
            omega
          · intro c hc
            cases hc
          · rw [hrun]
            simp
          · right
            rw [hrun]
            refine ⟨?_, rfl, hcol⟩
            show toolIterations < toolIterations + (fuel + 1)
            omega
      | some tcs =>
          have hrun : runStreamFrom respondS exec success contentOf toolSchemas
              iteration (fuel + 1) msgs boundaries trace events toolIterations =
              runStreamFrom respondS exec success contentOf toolSchemas
                (iteration + 1) fuel
                (compressOldIterations
                  ((msgs ++ [buildAssistantToolMsg tcs]) ++
                    ((tcs.zip (executeToolsParallel exec tcs)).map fun p =>
                      buildToolResultMsg p.1 (contentOf p.1 p.2)))
                  (boundaries ++ [msgs.length]) iteration)
                (boundaries ++ [msgs.length])
                (trace ++ [⟨toolSchemas, (respondS msgs toolSchemas).1,
                  (respondS msgs toolSchemas).2⟩])
                ((events ++ (respondS msgs toolSchemas).1.map AgentEvt.text) ++
                  toolBatchEvents success tcs (executeToolsParallel exec tcs))
                (toolIterations + 1) := by
            simp [runStreamFrom, hcol]
          obtain ⟨mid, last, pre, h1, h2, h3, h4, h5⟩ :=
            ih (iteration + 1)
              (compressOldIterations
                ((msgs ++ [buildAssistantToolMsg tcs]) ++
                  ((tcs.zip (executeToolsParallel exec tcs)).map fun p =>
                    buildToolResultMsg p.1 (contentOf p.1 p.2)))
                (boundaries ++ [msgs.length]) iteration)
              (boundaries ++ [msgs.length])
              (trace ++ [⟨toolSchemas, (respondS msgs toolSchemas).1,
                (respondS msgs toolSchemas).2⟩])
              ((events ++ (respondS msgs toolSchemas).1.map AgentEvt.text) ++
                toolBatchEvents success tcs (executeToolsParallel exec tcs))
              (toolIterations + 1)
          refine ⟨⟨toolSchemas, (respondS msgs toolSchemas).1,
            (respondS msgs toolSchemas).2⟩ :: mid, last,
            (respondS msgs toolSchemas).1.map AgentEvt.text ++
              toolBatchEvents success tcs (executeToolsParallel exec tcs) ++ pre,
            ?_, ?_, ?_, ?_, ?_⟩
          · rw [hrun, h1]
            simp
          · rw [hrun]
            omega
          · intro c hc
            rcases List.mem_cons.mp hc with rfl | hc2
            · rfl
            · exact h3 c hc2
          · rw [hrun, h4]
            simp [List.append_assoc]
          · rcases h5 with ⟨hcap, hlen, htools⟩ | ⟨hlt, ht, hf⟩
            · left
              rw [hrun]
              exact ⟨by omega, by simp [hlen], htools⟩
            · right
              rw [hrun]
              exact ⟨by omega, ht, hf⟩

/-- C4: `AGENT_MAX_ITERATIONS` defaults to 8; in every run — blocking and
streaming — the number of iterations that executed a tool batch is at most
`AGENT_MAX_ITERATIONS`.  The trace of model calls ends in a last call, all
calls before it attach the cached schema list, and either (cap reached)
exactly `AGENT_MAX_ITERATIONS` tool-calling iterations ran, exactly one
additional final call was made with **no tools attached**, and the run
returns (resp. re-emits, for streaming) that call's text, or (early
termination) the last call still attached the schemas and its response
carried no tool calls, so the returned text again comes from a response
without tool calls. -/
theorem c4_iteration_cap {R : Type}
    (respond : List ChatMsg → Option (List FnSchema) → LLMResp)
    (respondS : List ChatMsg → Option (List FnSchema) →
      List String × Option (List AToolCall))
    (exec : AToolCall → R) (success : R → Bool)
    (contentOf : AToolCall → R → String)
    (toolSchemas : Option (List FnSchema)) (systemPrompt : String)
    (messages : List ChatMsg) :
    AGENT_MAX_ITERATIONS = 8 ∧
    (runModel respond exec contentOf toolSchemas systemPrompt
      messages).toolIterations ≤ AGENT_MAX_ITERATIONS ∧
    (∃ mid last,
      (runModel respond exec contentOf toolSchemas systemPrompt messages).trace =
        mid ++ [last] ∧
      (runModel respond exec contentOf toolSchemas systemPrompt messages).content =
        last.resp.content.getD "" ∧
      (∀ c ∈ mid, c.tools = toolSchemas) ∧
      (((runModel respond exec contentOf toolSchemas systemPrompt
          messages).toolIterations = AGENT_MAX_ITERATIONS ∧
        mid.length = AGENT_MAX_ITERATIONS ∧ last.tools = none) ∨
       ((runModel respond exec contentOf toolSchemas systemPrompt
          messages).toolIterations < AGENT_MAX_ITERATIONS ∧
        last.tools = toolSchemas ∧ last.resp.hasToolCalls = false))) ∧
    (runStreamModel respondS exec success contentOf toolSchemas systemPrompt
      messages).toolIterations ≤ AGENT_MAX_ITERATIONS ∧
    (∃ mid last pre,
      (runStreamModel respondS exec success contentOf toolSchemas systemPrompt
        messages).trace = mid ++ [last] ∧
      (∀ c ∈ mid, c.tools = toolSchemas) ∧
      (runStreamModel respondS exec success contentOf toolSchemas systemPrompt
        messages).events = pre ++ last.texts.map AgentEvt.text ∧
      (((runStreamModel respondS exec success contentOf toolSchemas systemPrompt
          messages).toolIterations = AGENT_MAX_ITERATIONS ∧
        mid.length = AGENT_MAX_ITERATIONS ∧ last.tools = none) ∨
       ((runStreamModel respondS exec success contentOf toolSchemas systemPrompt
          messages).toolIterations < AGENT_MAX_ITERATIONS ∧
        last.tools = toolSchemas ∧ last.collected = none))) := by
  obtain ⟨mid, last, h1, h2, h3, h4, h5⟩ :=
    runFrom_spec respond exec contentOf toolSchemas AGENT_MAX_ITERATIONS 0
      ({ role := "system", content := some systemPrompt } :: messages) [] [] 0
  obtain ⟨smid, slast, spre, g1, g2, g3, g4, g5⟩ :=
    runStreamFrom_spec respondS exec success contentOf toolSchemas
      AGENT_MAX_ITERATIONS 0
      ({ role := "system", content := some systemPrompt } :: messages) [] [] [] 0
  rw [List.nil_append] at h1 g1
  rw [Nat.zero_add] at h2 g2
  rw [List.nil_append] at g4
  simp only [runModel, runStreamModel]
  refine ⟨rfl, h2, ⟨mid, last, h1, h3, h4, ?_⟩, g2, ⟨smid, slast, spre, g1, g3, g4, ?_⟩⟩
  · rcases h5 with ⟨hc, hl, ht⟩ | ⟨hc, ht, hf⟩
    · exact Or.inl ⟨by omega, hl, ht⟩
    · exact Or.inr ⟨by omega, ht, hf⟩
  · rcases g5 with ⟨hc, hl, ht⟩ | ⟨hc, ht, hf⟩
    · exact Or.inl ⟨by omega, hl, ht⟩
    · exact Or.inr ⟨by omega, ht, hf⟩

theorem strEmpty_append (a : String) : "" ++ a = a := by
  apply String.ext
  simp [strData_append]

theorem lookup_isSome_iff (l : List (Nat × PendingEntry)) (i : Nat) :
    (l.lookup i).isSome ↔ i ∈ l.map Prod.fst := by
  induction l with
  | nil => simp [List.lookup]
  | cons q rest ih =>
      by_cases h : i = q.1
      · subst h
        simp [List.lookup]
      · have hb : (i == q.1) = false := by
          simp [h]
        simp [List.lookup, hb, ih, h]

theorem deltasAtIn_cons (i : Nat) (d : ToolCallDelta) (rest : List ToolCallDelta) :
    deltasAtIn i (d :: rest) =
      if deltaIdx d = i then d :: deltasAtIn i rest else deltasAtIn i rest := by
  by_cases h : deltaIdx d = i
  · simp [deltasAtIn, List.filter_cons, h]
  · simp [deltasAtIn, List.filter_cons, h]

theorem namesIn_cons_eq (i : Nat) (d : ToolCallDelta) (rest : List ToolCallDelta)
    (h : deltaIdx d = i) :
    namesIn i (d :: rest) = d.fnName.getD "" ++ namesIn i rest := by
  unfold namesIn
  rw [deltasAtIn_cons, if_pos h]
  cases hn : d.fnName with
  | none =>
      simp only [List.filterMap_cons, hn]
      rw [Option.getD_none, strEmpty_append]
  | some n =>
      simp only [List.filterMap_cons, hn]
      rw [strJoin_cons, Option.getD_some]

theorem namesIn_cons_ne (i : Nat) (d : ToolCallDelta) (rest : List ToolCallDelta)
    (h : ¬ deltaIdx d = i) :
    namesIn i (d :: rest) = namesIn i rest := by
  unfold namesIn
  rw [deltasAtIn_cons, if_neg h]

theorem argsIn_cons_eq (i : Nat) (d : ToolCallDelta) (rest : List ToolCallDelta)
    (h : deltaIdx d = i) :
    argsIn i (d :: rest) = d.fnArguments.getD "" ++ argsIn i rest := by
  unfold argsIn
  rw [deltasAtIn_cons, if_pos h]
  cases hn : d.fnArguments with
  | none =>
      simp only [List.filterMap_cons, hn]
      rw [Option.getD_none, strEmpty_append]
  | some n =>
      simp only [List.filterMap_cons, hn]
      rw [strJoin_cons, Option.getD_some]

theorem argsIn_cons_ne (i : Nat) (d : ToolCallDelta) (rest : List ToolCallDelta)
    (h : ¬ deltaIdx d = i) :
    argsIn i (d :: rest) = argsIn i rest := by
  unfold argsIn
  rw [deltasAtIn_cons, if_neg h]

theorem firstIdIn_cons_eq (i : Nat) (d : ToolCallDelta) (rest : List ToolCallDelta)
    (h : deltaIdx d = i) :
    firstIdIn i (d :: rest) = d.id.getD ("call_" ++ toString i) := by
  unfold firstIdIn
  rw [deltasAtIn_cons, if_pos h]

theorem firstIdIn_cons_ne (i : Nat) (d : ToolCallDelta) (rest : List ToolCallDelta)
    (h : ¬ deltaIdx d = i) :
    firstIdIn i (d :: rest) = firstIdIn i rest := by
  unfold firstIdIn
  rw [deltasAtIn_cons, if_neg h]

theorem namesIn_nil (i : Nat) : namesIn i [] = "" := rfl

theorem argsIn_nil (i : Nat) : argsIn i [] = "" := rfl

theorem newIndicesIn_not_mem :
    ∀ (ds : List ToolCallDelta) (ks : List Nat) (i : Nat),
      i ∈ newIndicesIn ks ds → i ∉ ks := by
  intro ds
  induction ds with
  | nil =>
      intro ks i hi
      cases hi
  | cons d rest ih =>
      intro ks i hi
      unfold newIndicesIn at hi
      by_cases hd : deltaIdx d ∈ ks
      · rw [if_pos hd] at hi
        exact ih ks i hi
      · rw [if_neg hd] at hi
        rcases List.mem_cons.mp hi with rfl | hi2
        · exact hd
        · intro hik
          exact ih (deltaIdx d :: ks) i hi2 (List.mem_cons_of_mem _ hik)

theorem newIndicesIn_congr :
    ∀ (ds : List ToolCallDelta) (ks ks2 : List Nat),
      (∀ i, i ∈ ks ↔ i ∈ ks2) → newIndicesIn ks ds = newIndicesIn ks2 ds := by
  intro ds
  induction ds with
  | nil =>
      intro ks ks2 _
      rfl
  | cons d rest ih =>
      intro ks ks2 hiff
      unfold newIndicesIn
      by_cases hd : deltaIdx d ∈ ks
      · rw [if_pos hd, if_pos ((hiff _).mp hd)]
        exact ih ks ks2 hiff
      · rw [if_neg hd, if_neg (fun h => hd ((hiff _).mpr h))]
        congr 1
        apply ih
        intro i
        constructor
        · intro h
          rcases List.mem_cons.mp h with rfl | h2
          · exact List.mem_cons_self _ _
          · exact List.mem_cons_of_mem _ ((hiff i).mp h2)
        · intro h
          rcases List.mem_cons.mp h with rfl | h2
          · exact List.mem_cons_self _ _
          · exact List.mem_cons_of_mem _ ((hiff i).mpr h2)

theorem lookup_pairing (f : Nat → PendingEntry) :
    ∀ (indices : List Nat) (i : Nat),
      ((indices.map fun j => (j, f j)).lookup i) =
        if i ∈ indices then some (f i) else none := by
  intro indices
  induction indices with
  | nil =>
      intro i
      simp [List.lookup]
  | cons j rest ih =>
      intro i
      by_cases h : i = j
      · subst h
        simp [List.lookup]
      · have hb : (i == j) = false := by
          simp [h]
        simp [List.lookup, hb, ih, h]

theorem filterMap_eq_map_of {α : Type} (g : Nat → α) :
    ∀ (l : List Nat) (f : Nat → Option α),
      (∀ i ∈ l, f i = some (g i)) → l.filterMap f = l.map g := by
  intro l
  induction l with
  | nil =>
      intro f _
      rfl
  | cons i rest ih =>
      intro f hf
      rw [List.filterMap_cons, hf i (List.mem_cons_self _ _), List.map_cons,
        ih f (fun j hj => hf j (List.mem_cons_of_mem _ hj))]

theorem map_ext_nil (p0 : List (Nat × PendingEntry)) :
    p0.map (fun q => (q.1,
      ({ id := q.2.id, name := q.2.name ++ "",
         argumentsStr := q.2.argumentsStr ++ "" } : PendingEntry))) = p0 := by
  induction p0 with
  | nil => rfl
  | cons q rest ih =>
      rw [List.map_cons, ih]
      congr 1
      rw [strAppend_empty, strAppend_empty]

theorem newIndicesIn_cons (ks : List Nat) (d : ToolCallDelta)
    (rest : List ToolCallDelta) :
    newIndicesIn ks (d :: rest) =
      if deltaIdx d ∈ ks then newIndicesIn ks rest
      else deltaIdx d :: newIndicesIn (deltaIdx d :: ks) rest := rfl

theorem foldl_applyToolCallDelta :
    ∀ (ds : List ToolCallDelta) (p0 : List (Nat × PendingEntry)),
      ds.foldl applyToolCallDelta p0 =
        (p0.map fun q => (q.1,
          ({ id := q.2.id, name := q.2.name ++ namesIn q.1 ds,
             argumentsStr := q.2.argumentsStr ++ argsIn q.1 ds } : PendingEntry))) ++
        ((newIndicesIn (p0.map Prod.fst) ds).map fun i => (i, specEntry i ds)) := by
  intro ds
  induction ds with
  | nil =>
      intro p0
      rw [List.foldl_nil]
      have h1 : newIndicesIn (p0.map Prod.fst) [] = [] := rfl
      rw [h1, List.map_nil, List.append_nil]
      simp only [namesIn_nil, argsIn_nil]
      exact (map_ext_nil p0).symm
  | cons d rest ih =>
      intro p0
      rw [List.foldl_cons]
      by_cases hmem : (p0.lookup (deltaIdx d)).isSome
      · -- the index already has an accumulator: in-place update
        have happ : applyToolCallDelta p0 d = p0.map (fun p =>
            if p.1 = deltaIdx d then
              (p.1, ({ id := p.2.id, name := p.2.name ++ d.fnName.getD "",
                       argumentsStr := p.2.argumentsStr ++ d.fnArguments.getD "" }
                : PendingEntry))
            else p) := by
          simp only [applyToolCallDelta, hmem, if_true]
        rw [happ, ih]
        have hmem2 : deltaIdx d ∈ p0.map Prod.fst := (lookup_isSome_iff p0 _).mp hmem
        have hfst : (p0.map (fun p =>
            if p.1 = deltaIdx d then
              (p.1, ({ id := p.2.id, name := p.2.name ++ d.fnName.getD "",
                       argumentsStr := p.2.argumentsStr ++ d.fnArguments.getD "" }
                : PendingEntry))
            else p)).map Prod.fst = p0.map Prod.fst := by
          rw [List.map_map]
          apply List.map_congr_left
          intro q _
          by_cases hq : q.1 = deltaIdx d
          · simp [hq]
          · simp [hq]
        rw [hfst, newIndicesIn_cons, if_pos hmem2]
        congr 1
        · rw [List.map_map]
          apply List.map_congr_left
          intro q _
          by_cases hq : q.1 = deltaIdx d
          · have hq2 : deltaIdx d = q.1 := hq.symm
            simp only [Function.comp, if_pos hq]
            rw [namesIn_cons_eq _ _ _ hq2, argsIn_cons_eq _ _ _ hq2,
              strAppend_assoc, strAppend_assoc]
          · have hq2 : ¬ deltaIdx d = q.1 := fun h => hq h.symm
            simp only [Function.comp, if_neg hq]
            rw [namesIn_cons_ne _ _ _ hq2, argsIn_cons_ne _ _ _ hq2]
        · apply List.map_congr_left
          intro i hi
          have hid : ¬ deltaIdx d = i := by
            intro h
            exact newIndicesIn_not_mem rest (p0.map Prod.fst) i hi (h ▸ hmem2)
          unfold specEntry
          rw [namesIn_cons_ne _ _ _ hid, argsIn_cons_ne _ _ _ hid,
            firstIdIn_cons_ne _ _ _ hid]
      · -- a first delta for this index: append a fresh accumulator
        have hnotmem : deltaIdx d ∉ p0.map Prod.fst := fun h =>
          hmem ((lookup_isSome_iff p0 _).mpr h)
        have hkeys : ∀ q ∈ p0, ¬ q.1 = deltaIdx d := by
          intro q hq h
          exact hnotmem (h ▸ List.mem_map_of_mem Prod.fst hq)
        have hcond : (p0.lookup (deltaIdx d)).isSome = false := by
          cases h : (p0.lookup (deltaIdx d)).isSome
          · rfl
          · exact absurd h hmem
        have happ : applyToolCallDelta p0 d = p0 ++
            [(deltaIdx d,
              ({ id := d.id.getD ("call_" ++ toString (deltaIdx d)),
                 name := "" ++ d.fnName.getD "",
                 argumentsStr := "" ++ d.fnArguments.getD "" } : PendingEntry))] := by
          simp only [applyToolCallDelta, hcond, Bool.false_eq_true, if_false,
            List.map_append]
          congr 1
          · rw [List.map_congr_left (g := id) (fun q hq => by
              simp [hkeys q hq]), List.map_id]
          · simp
        rw [happ, ih]
        have hfst2 : (p0 ++
            [(deltaIdx d,
              ({ id := d.id.getD ("call_" ++ toString (deltaIdx d)),
                 name := "" ++ d.fnName.getD "",
                 argumentsStr := "" ++ d.fnArguments.getD "" } : PendingEntry))]).map
            Prod.fst = p0.map Prod.fst ++ [deltaIdx d] := by
          rw [List.map_append]
          rfl
        have hcongrKs : newIndicesIn (p0.map Prod.fst ++ [deltaIdx d]) rest =
            newIndicesIn (deltaIdx d :: p0.map Prod.fst) rest := by
          apply newIndicesIn_congr
          intro i
          simp [or_comm]
        rw [hfst2, hcongrKs, newIndicesIn_cons, if_neg hnotmem, List.map_append]
        simp only [List.map_cons, List.map_nil, List.singleton_append,
          List.append_assoc]
        congr 1
        · apply List.map_congr_left
          intro q hq
          have hq2 : ¬ deltaIdx d = q.1 := fun h => (hkeys q hq) h.symm
          rw [namesIn_cons_ne _ _ _ hq2, argsIn_cons_ne _ _ _ hq2]
        · congr 1
          · unfold specEntry
            rw [strEmpty_append, strEmpty_append,
              namesIn_cons_eq _ _ _ rfl, argsIn_cons_eq _ _ _ rfl,
              firstIdIn_cons_eq _ _ _ rfl]
          · apply List.map_congr_left
            intro i hi
            have hiks : i ∉ deltaIdx d :: p0.map Prod.fst :=
              newIndicesIn_not_mem rest _ i hi
            have hid : ¬ deltaIdx d = i := fun h =>
              hiks (h ▸ List.mem_cons_self _ _)
            unfold specEntry
            rw [namesIn_cons_ne _ _ _ hid, argsIn_cons_ne _ _ _ hid,
              firstIdIn_cons_ne _ _ _ hid]

theorem chunkChoices_cons_none (ch : StreamChunk) (rest : List StreamChunk)
    (h : ch.choices = []) : chunkChoices (ch :: rest) = chunkChoices rest := by
  simp [chunkChoices, List.filterMap_cons, h]

theorem chunkChoices_cons_some (ch : StreamChunk) (rest : List StreamChunk)
    (choice : StreamChoice) (tl : List StreamChoice)
    (h : ch.choices = choice :: tl) :
    chunkChoices (ch :: rest) = choice :: chunkChoices rest := by
  simp [chunkChoices, List.filterMap_cons, h]

theorem foldl_finishStep :
    ∀ (fs : List String) (f0 : String),
      fs.foldl (fun acc f => if f = "" then acc else f) f0 =
        ((fs.filter (fun f => ¬ f = "")).getLast?).getD f0 := by
  intro fs
  induction fs with
  | nil =>
      intro f0
      rfl
  | cons f rest ih =>
      intro f0
      rw [List.foldl_cons]
      by_cases hf : f = ""
      · rw [if_pos hf, ih]
        have hfil : (f :: rest).filter (fun f => ¬ f = "") =
            rest.filter (fun f => ¬ f = "") := by
          simp [List.filter_cons, hf]
        rw [hfil]
      · rw [if_neg hf, ih]
        have hfil : (f :: rest).filter (fun f => ¬ f = "") =
            f :: rest.filter (fun f => ¬ f = "") := by
          simp [List.filter_cons, hf]
        rw [hfil]
        cases hfr : rest.filter (fun f => ¬ f = "") with
        | nil => simp
        | cons b l =>
            rw [List.getLast?_cons_cons,
              List.getLast?_eq_getLast (b :: l) (by simp)]
            rfl

theorem streamFold_spec :
    ∀ (chunks : List StreamChunk) (p0 : List (Nat × PendingEntry)) (f0 : String)
      (t0 : List String),
      chunks.foldl
        (fun acc chunk =>
          let s := chatStreamStep acc.1 chunk
          (s.1, acc.2 ++ s.2)) ((p0, f0), t0) =
      (((flatToolCallDeltas chunks).foldl applyToolCallDelta p0,
        (finishReasons chunks).foldl (fun acc f => if f = "" then acc else f) f0),
       t0 ++ streamTexts chunks) := by
  intro chunks
  induction chunks with
  | nil =>
      intro p0 f0 t0
      simp [flatToolCallDeltas, chunkChoices, finishReasons, streamTexts]
  | cons ch rest ih =>
      intro p0 f0 t0
      rw [List.foldl_cons]
      show List.foldl
          (fun acc chunk =>
            let s := chatStreamStep acc.1 chunk
            (s.1, acc.2 ++ s.2))
          ((chatStreamStep (p0, f0) ch).1, t0 ++ (chatStreamStep (p0, f0) ch).2)
          rest = _
      cases hch : ch.choices with
      | nil =>
          have hstep : chatStreamStep (p0, f0) ch = ((p0, f0), []) := by
            unfold chatStreamStep
            rw [hch]
          rw [hstep, List.append_nil, ih]
          have h1 := chunkChoices_cons_none ch rest hch
          rw [show flatToolCallDeltas (ch :: rest) = flatToolCallDeltas rest from by
              unfold flatToolCallDeltas
              rw [h1],
            show finishReasons (ch :: rest) = finishReasons rest from by
              unfold finishReasons
              rw [h1],
            show streamTexts (ch :: rest) = streamTexts rest from by
              unfold streamTexts
              rw [h1]]
      | cons choice tl =>
          have hstep : chatStreamStep (p0, f0) ch =
              (((choice.delta.toolCalls.getD []).foldl applyToolCallDelta p0,
                match choice.finishReason with
                | some f => if f = "" then f0 else f
                | none => f0),
               match choice.delta.content with
               | some c => if c = "" then [] else [c]
               | none => []) := by
            unfold chatStreamStep
            rw [hch]
            show ((match choice.delta.toolCalls with
                   | some ds => ds.foldl applyToolCallDelta p0
                   | none => p0,
                  match choice.finishReason with
                  | some f => if f = "" then f0 else f
                  | none => f0),
                 match choice.delta.content with
                 | some c => if c = "" then [] else [c]
                 | none => []) = _
            cases htc : choice.delta.toolCalls with
            | none => rfl
            | some ds => rfl
          rw [hstep, ih]
          have h1 := chunkChoices_cons_some ch rest choice tl hch
          have hflat : flatToolCallDeltas (ch :: rest) =
              choice.delta.toolCalls.getD [] ++ flatToolCallDeltas rest := by
            unfold flatToolCallDeltas
            rw [h1, List.map_cons, List.flatten_cons]
          have htexts : streamTexts (ch :: rest) =
              (match choice.delta.content with
               | some c => if c = "" then [] else [c]
               | none => []) ++ streamTexts rest := by
            unfold streamTexts
            rw [h1, List.filterMap_cons]
            cases hc : choice.delta.content with
            | none => rfl
            | some c =>
                by_cases hce : c = ""
                · simp [hce]
                · simp [hce]
          rw [hflat, List.foldl_append, htexts]
          have hfin : (finishReasons (ch :: rest)).foldl
              (fun acc f => if f = "" then acc else f) f0 =
              (finishReasons rest).foldl (fun acc f => if f = "" then acc else f)
                (match choice.finishReason with
                 | some f => if f = "" then f0 else f
                 | none => f0) := by
            unfold finishReasons
            rw [h1, List.filterMap_cons]
            cases hfr : choice.finishReason with
            | none => rfl
            | some f => rw [List.foldl_cons]
          rw [hfin, List.append_assoc]

theorem newIndicesIn_nil_iff :
    ∀ ds : List ToolCallDelta, (newIndicesIn [] ds = []) ↔ ds = [] := by
  intro ds
  cases ds with
  | nil => simp [newIndicesIn]
  | cons d rest =>
      rw [newIndicesIn_cons]
      simp

/-- C6 amended: `chat_stream` keeps one accumulator per backend-assigned
delta index, concatenating the `function.name` and `function.arguments`
fragments across deltas; after the stream terminates it yields exactly one
terminal tool-calls event iff any tool-call delta accumulated (none
otherwise), whose calls list the accumulators in ascending index order,
each arguments string parsed as JSON with the raw-string fallback instead
of raising; its finish reason is the most recent non-null **and
non-empty** finish reason seen in any chunk (default `"stop"`) — a chunk
carrying the empty-string finish reason, which is non-null but falsy, is
skipped. -/
theorem c6_stream_reconstruction {J : Type} (parse : String → Option J)
    (chunks : List StreamChunk) :
    (chatStreamModel parse chunks).countP (fun e => match e with
      | .toolCallsEvt _ _ => true
      | .text _ => false) =
      (if flatToolCallDeltas chunks = [] then 0 else 1) ∧
    chatStreamModel parse chunks =
      (streamTexts chunks).map BStreamEvt.text ++
      (if flatToolCallDeltas chunks = [] then []
       else [BStreamEvt.toolCallsEvt
         (((newIndicesIn [] (flatToolCallDeltas chunks)).mergeSort
             (fun a b => a ≤ b)).map
           (fun i => mkStreamToolCall parse
             (specEntry i (flatToolCallDeltas chunks))))
         (lastTruthyFinish chunks)]) := by
  have hpend := foldl_applyToolCallDelta (flatToolCallDeltas chunks) []
  simp only [List.map_nil, List.nil_append] at hpend
  have hmain : chatStreamModel parse chunks =
      (streamTexts chunks).map BStreamEvt.text ++
      (if flatToolCallDeltas chunks = [] then []
       else [BStreamEvt.toolCallsEvt
         (((newIndicesIn [] (flatToolCallDeltas chunks)).mergeSort
             (fun a b => a ≤ b)).map
           (fun i => mkStreamToolCall parse
             (specEntry i (flatToolCallDeltas chunks))))
         (lastTruthyFinish chunks)]) := by
    unfold chatStreamModel
    rw [streamFold_spec chunks [] "stop" []]
    show (([] ++ streamTexts chunks).map BStreamEvt.text) ++ _ = _
    rw [List.nil_append]
    congr 1
    rw [hpend]
    by_cases hds : flatToolCallDeltas chunks = []
    · have hempty : newIndicesIn [] (flatToolCallDeltas chunks) = [] :=
        (newIndicesIn_nil_iff _).mpr hds
      rw [hempty, List.map_nil, if_pos hds]
      simp
    · have hne : newIndicesIn [] (flatToolCallDeltas chunks) ≠ [] := by
        intro h
        exact hds ((newIndicesIn_nil_iff _).mp h)
      have hne2 : (newIndicesIn [] (flatToolCallDeltas chunks)).map
          (fun i => (i, specEntry i (flatToolCallDeltas chunks))) ≠ [] := by
        intro h
        exact hne (List.map_eq_nil_iff.mp h)
      rw [if_neg hne2, if_neg hds]
      have hkeys : ((newIndicesIn [] (flatToolCallDeltas chunks)).map
          (fun i => (i, specEntry i (flatToolCallDeltas chunks)))).map Prod.fst =
          newIndicesIn [] (flatToolCallDeltas chunks) := by
        rw [List.map_map]
        exact List.map_id' _
      congr 2
      · rw [hkeys]
        apply filterMap_eq_map_of
        intro i hi
        have himem : i ∈ newIndicesIn [] (flatToolCallDeltas chunks) :=
          (List.mergeSort_perm _ _).mem_iff.mp hi
        rw [lookup_pairing (fun j => specEntry j (flatToolCallDeltas chunks)) _ i,
          if_pos himem]
        rfl
      · rw [foldl_finishStep]
        rfl
  refine ⟨?_, hmain⟩
  rw [hmain, List.countP_append]
  have h0 : ((streamTexts chunks).map (BStreamEvt.text (J := J))).countP
      (fun e => match e with
        | .toolCallsEvt _ _ => true
        | .text _ => false) = 0 := by
    rw [List.countP_eq_zero]
    intro e he
    obtain ⟨c, -, rfl⟩ := List.mem_map.mp he
    simp
  rw [h0, Nat.zero_add]
  by_cases hds : flatToolCallDeltas chunks = []
  · rw [if_pos hds, if_pos hds]
    rfl
  · rw [if_neg hds, if_neg hds]
    rfl

set_option maxRecDepth 20000 in
unseal List.merge List.mergeSort in
/-- C6 counterexample: a stream whose first chunk carries one tool-call
delta and finish reason `length`, and whose second chunk carries the
finish reason `""` — non-null, but falsy.  The most recent non-null finish
reason is `""`, yet the terminal event's finish reason is `length`: the
code keeps only truthy finish reasons, so the claim as stated fails. -/
theorem c6_counterexample :
    chatStreamModel (J := Unit) (fun _ => none)
      [⟨[⟨⟨none, some [⟨some 0, some "call_a", some "websearch", some "ab"⟩]⟩,
          some "length"⟩]⟩,
       ⟨[⟨⟨none, none⟩, some ""⟩]⟩] =
      [BStreamEvt.toolCallsEvt [⟨"call_a", "websearch", ArgsVal.raw "ab"⟩]
        "length"] ∧
    lastNonNullFinish
      [⟨[⟨⟨none, some [⟨some 0, some "call_a", some "websearch", some "ab"⟩]⟩,
          some "length"⟩]⟩,
       ⟨[⟨⟨none, none⟩, some ""⟩]⟩] = some "" ∧
    ("length" : String) ≠ "" := by
  refine ⟨by decide, by decide, by decide⟩
